import Mathlib

/-!
# Verification of `github_stars_to_notion`

A shallow embedding, in Lean 4, of the single source file
`github_stars_to_notion/__init__.py`: the GitHub star fetcher
(`gh_query`, `get_stars`) and the Notion table reconciler
(`sync_star_table`), together with theorems about the specified
properties.

Modelling conventions:

* The GraphQL transport is a list of `Response`s consumed in request
  order; a run of `get_stars` issues requests until a page reports
  `hasNextPage = false`, a request fails, or the response list is
  exhausted (the last case models an endless remote).
* A Notion row is a handle (`id`) plus named text fields.  notion-py
  resolves an attribute name against a column by slugifying both sides
  (`URL` and `url` hit the same column); we model the slug as
  `String.toLower`.  Reading an absent or unset text property yields
  the empty string; writing `None` to a text property stores the empty
  string.  Row handles of one table snapshot are pairwise distinct
  objects, which theorems state as `Nodup` of the ids.
* Every Notion mutation issued by the reconciler is logged as an `Op`
  (row creation, field write with the raw value passed to `setattr`,
  row deletion), and every `print` as a message string, so that claims
  about "writes performed" and "reports" are claims about these logs.
-/

set_option autoImplicit false

namespace GhStars

/-- One starred repository as returned by the GitHub GraphQL API:
`name`, `url`, and `description` (which GitHub may return as `null`). -/
structure Star where
  name : String
  url : String
  description : Option String
deriving Repr, DecidableEq

/-- One page of `starredRepositories`: the `edges` (each edge's `node` is a
`Star`) and the `pageInfo` fields `hasNextPage` / `endCursor`. -/
structure Page where
  edges : List Star
  hasNextPage : Bool
  endCursor : Option String
deriving Repr, DecidableEq

/-- One transport response to a GraphQL request: HTTP status code and the
page carried by the body (meaningful only when the status is 200). -/
structure Response where
  status : Nat
  page : Page
deriving Repr, DecidableEq

/-- The query built by `get_stars` for one page request: the user login,
the page size (`first: 100`), and the `after:` clause, present exactly
when it was attached. -/
structure GqlQuery where
  user : String
  firstCount : Nat
  after : Option String
deriving Repr, DecidableEq

/-- The exception raised by `gh_query` on a non-200 response:
`Exception('Query failed to run by returning code of {status}. {query}')`
carries the status code and the failed query. -/
structure QueryError where
  status : Nat
  query : GqlQuery
deriving Repr, DecidableEq

/-- Python truthiness of the `end_cursor` variable (`if end_cursor:`):
`None` and the empty string are falsy. -/
def cursorTruthy : Option String → Bool
  | none => false
  | some c => c ≠ ""

/-- `after_clause` construction: the cursor is attached only when
`end_cursor` is truthy. -/
def afterClause (endCursor : Option String) : Option String :=
  if cursorTruthy endCursor then some (endCursor.getD "") else none

/-- The query text sent for one page request (modelled structurally:
login, `first: 100`, optional `after:` clause). -/
def starQuery (user : String) (endCursor : Option String) : GqlQuery :=
  { user := user, firstCount := 100, after := afterClause endCursor }

/-- `gh_query`: returns the parsed body on status 200 and raises an
exception carrying the status code and the query otherwise. -/
def gh_query (query : GqlQuery) (resp : Response) : Except QueryError Page :=
  if resp.status = 200 then Except.ok resp.page
  else Except.error { status := resp.status, query := query }

/-- Outcome of a `get_stars` run: a star list, a raised `QueryError`, or
`truncated` when the transport list ran out while the loop still wanted
another page (modelling the accepted nontermination risk). -/
inductive FetchResult where
  | ok (stars : List Star)
  | fail (e : QueryError)
  | truncated
deriving Repr, DecidableEq

/-- The pagination loop of `get_stars`: one request per list element of
`resps`, accumulating `edges` into `acc`; returns the queries issued (in
order) and the outcome.  `cursor` is the current `end_cursor`. -/
def get_starsAux (user : String) (cursor : Option String) (acc : List Star) :
    List Response → List GqlQuery × FetchResult
  | [] => ([], FetchResult.truncated)
  | r :: rest =>
    let q := starQuery user cursor
    match gh_query q r with
    | Except.error e => ([q], FetchResult.fail e)
    | Except.ok page =>
      let acc' := acc ++ page.edges
      if page.hasNextPage then
        let next := get_starsAux user page.endCursor acc' rest
        (q :: next.1, next.2)
      else
        ([q], FetchResult.ok acc')

/-- `get_stars`: run the pagination loop from an absent cursor and an
empty accumulator against the given transport. -/
def get_stars (user : String) (resps : List Response) :
    List GqlQuery × FetchResult :=
  get_starsAux user none [] resps

/-- A consistent `hasNextPage` sequence of responses: every page but the
last reports `hasNextPage = true`, the last reports `false` (so the
remote delivers at least one response, possibly with zero items). -/
def consistentPages : List Response → Prop
  | [] => False
  | [r] => r.page.hasNextPage = false
  | r :: rest => r.page.hasNextPage = true ∧ consistentPages rest

/-! ## The Notion table model -/

/-- A row of the Notion collection: a handle identity (`id`, modelling the
distinct `CollectionRowBlock` object / block id) and the named text
fields.  Distinct handles of one table have distinct `id`s. -/
structure Row where
  id : Nat
  fields : List (String × String)
deriving Repr, DecidableEq

/-- notion-py resolves an attribute name against a column name by
slugifying both; for the column names in play the slug is lowercasing
(written on the character list so that it evaluates by `decide`). -/
def slug (s : String) : String := String.mk (s.data.map Char.toLower)

/-- Value of the first entry of a field list whose column name
slug-matches `col`; an absent or unset text property reads as `""`. -/
def getFieldList (l : List (String × String)) (col : String) : String :=
  match l.find? (fun p => slug p.1 = slug col) with
  | some p => p.2
  | none => ""

/-- `getattr(row, col)`: the value of the first field whose column name
slug-matches `col`. -/
def getField (r : Row) (col : String) : String :=
  getFieldList r.fields col

/-- Field update on the stored field list: replace the value of the first
slug-matching column, or append the column when absent. -/
def setFieldList (col value : String) : List (String × String) → List (String × String)
  | [] => [(col, value)]
  | (k, w) :: rest =>
    if slug k = slug col then (k, value) :: rest
    else (k, w) :: setFieldList col value rest

/-- `setattr(row, col, value)` with a string value. -/
def setField (r : Row) (col value : String) : Row :=
  { r with fields := setFieldList col value r.fields }

/-- `setattr(row, col, value)` where the value may be `None` (a star's
`description`): Notion stores an empty text property. -/
def setFieldOpt (r : Row) (col : String) (value : Option String) : Row :=
  setField r col (value.getD "")

/-- One write issued to the Notion collaborator.  `setF` records the raw
value handed to `setattr` (`none` when Python passed `None`). -/
inductive Op where
  | addRow (id : Nat)
  | setF (id : Nat) (col : String) (value : Option String)
  | deleteRow (id : Nat)
deriving Repr, DecidableEq

/-- The row handle an operation acts on. -/
def Op.target : Op → Nat
  | Op.addRow i => i
  | Op.setF i _ _ => i
  | Op.deleteRow i => i

/-! Python `dict` as an insertion-ordered association list:
inserting an existing key updates it in place. -/

/-- `d[k] = v` on a Python dict: replace in place, or append. -/
def dictInsert {α : Type} (d : List (String × α)) (k : String) (v : α) :
    List (String × α) :=
  if d.any (fun p => p.1 = k) then
    d.map (fun p => if p.1 = k then (k, v) else p)
  else d ++ [(k, v)]

/-- `k in d` on a Python dict. -/
def dictMem {α : Type} (k : String) (d : List (String × α)) : Bool :=
  d.any (fun p => p.1 = k)

/-- `d[k]` on a Python dict, as an `Option`. -/
def dictFind {α : Type} (d : List (String × α)) (k : String) : Option α :=
  (d.find? (fun p => p.1 = k)).map Prod.snd

/-! ## The reconciler `sync_star_table`, step by step -/

/-- Step 1: `stars_by_url` — index the stars by URL; a later star with
the same URL overwrites the earlier one (dict semantics). -/
def stars_by_url (stars : List Star) : List (String × Star) :=
  stars.foldl (fun d s => dictInsert d s.url s) []

/-- Step 2 loop body, recursively: skip rows whose `url_col_name` field
is empty, skip rows whose `url_col_name` field is already a key, and
otherwise insert under the key `row.url` — the field whose column name
slugs to `url`, NOT the configured `url_col_name` field.  Returns the
index and the warnings printed.  `acc` is the dict built so far. -/
def rowsIndexAux (url_col_name : String) (acc : List (String × Row)) :
    List Row → List (String × Row) × List String
  | [] => (acc, [])
  | r :: rest =>
    if (getField r url_col_name).length = 0 then
      let next := rowsIndexAux url_col_name acc rest
      (next.1, "Warning: skipping row with empty URL" :: next.2)
    else if dictMem (getField r url_col_name) acc then
      let next := rowsIndexAux url_col_name acc rest
      (next.1,
        ("Warning: found duplicate row for " ++ getField r url_col_name) :: next.2)
    else
      rowsIndexAux url_col_name (dictInsert acc (getField r "url") r) rest

/-- Step 2: `rows_by_url` — index the current rows. -/
def rows_by_url (url_col_name : String) (rows : List Row) :
    List (String × Row) × List String :=
  rowsIndexAux url_col_name [] rows

/-- A fresh row id, larger than every id of the current table (models
`cv.collection.add_row()` returning a brand-new row object). -/
def freshId (rows : List Row) : Nat :=
  rows.foldr (fun r m => max (r.id + 1) m) 0

/-- Step 3: add a row for every star whose URL is not a key of the
(unrefreshed) row index, setting name, description, then URL.  Returns
the created rows (appended at the end of the table), the ops and the
messages.  `nextId` supplies fresh handles. -/
def addMissing (name_col_name url_col_name description_col_name : String)
    (rowsIdx : List (String × Row)) (nextId : Nat) :
    List Star → List Row × List Op × List String
  | [] => ([], [], [])
  | s :: rest =>
    if dictMem s.url rowsIdx then
      addMissing name_col_name url_col_name description_col_name rowsIdx nextId rest
    else
      let r0 : Row := { id := nextId, fields := [] }
      let r1 := setField r0 name_col_name s.name
      let r2 := setFieldOpt r1 description_col_name s.description
      let r3 := setField r2 url_col_name s.url
      let next := addMissing name_col_name url_col_name description_col_name
        rowsIdx (nextId + 1) rest
      (r3 :: next.1,
        Op.addRow nextId ::
          Op.setF nextId name_col_name (some s.name) ::
          Op.setF nextId description_col_name s.description ::
          Op.setF nextId url_col_name (some s.url) :: next.2.1,
        ("Added new row for " ++ s.name) :: next.2.2)

/-- Apply one field write to the table state: the row with the given
handle gets the written value (`None` stores as empty). -/
def applySet (table : List Row) (id : Nat) (col : String) (v : Option String) :
    List Row :=
  table.map (fun r => if r.id = id then setFieldOpt r col v else r)

/-- Step 4: for every indexed row whose description field is empty, skip
it when its URL has no star, else set the description from the star's
record (the raw value) and report.  Threads the table state. -/
def backfillAux (description_col_name : String) (starsIdx : List (String × Star))
    (table : List Row) :
    List (String × Row) → List Row × List Op × List String
  | [] => (table, [], [])
  | (u, r) :: rest =>
    if (getField r description_col_name).length = 0 then
      match dictFind starsIdx u with
      | none => backfillAux description_col_name starsIdx table rest
      | some s =>
        let t := applySet table r.id description_col_name s.description
        let next := backfillAux description_col_name starsIdx t rest
        (next.1,
          Op.setF r.id description_col_name s.description :: next.2.1,
          ("Filled missing description for " ++ s.name) :: next.2.2)
    else backfillAux description_col_name starsIdx table rest

/-- Step 5 (only when `delete` is set): remove every indexed row whose
URL has no star, reporting each deletion by the row's name field. -/
def deleteOrphansAux (name_col_name : String) (starsIdx : List (String × Star))
    (table : List Row) :
    List (String × Row) → List Row × List Op × List String
  | [] => (table, [], [])
  | (u, r) :: rest =>
    if dictMem u starsIdx then
      deleteOrphansAux name_col_name starsIdx table rest
    else
      let t := table.filter (fun row => row.id ≠ r.id)
      let next := deleteOrphansAux name_col_name starsIdx t rest
      (next.1,
        Op.deleteRow r.id :: next.2.1,
        ("Deleted row for " ++ getField r name_col_name) :: next.2.2)

/-- `sync_star_table(url, token, stars, delete, name_col_name,
url_col_name, description_col_name)`: the whole reconciler run on a
table snapshot.  Returns the table after the run, the ops issued, and
the messages printed. -/
def sync_star_table (stars : List Star) (table : List Row) (delete : Bool)
    (name_col_name url_col_name description_col_name : String) :
    List Row × List Op × List String :=
  let starsIdx := stars_by_url stars
  let idx := rows_by_url url_col_name table
  let step3 := addMissing name_col_name url_col_name description_col_name
    idx.1 (freshId table) stars
  let t3 := table ++ step3.1
  let step4 := backfillAux description_col_name starsIdx t3 idx.1
  let step5 :=
    if delete then deleteOrphansAux name_col_name starsIdx step4.1 idx.1
    else (step4.1, [], [])
  (step5.1,
    step3.2.1 ++ step4.2.1 ++ step5.2.1,
    idx.2 ++ step3.2.2 ++ step4.2.2 ++ step5.2.2)

/-- A call of `sync_star_table` that passes none of the optional
parameters: `delete=False`, columns `Name` / `URL` / `Description`. -/
def sync_star_table_defaults (stars : List Star) (table : List Row) :
    List Row × List Op × List String :=
  sync_star_table stars table false "Name" "URL" "Description"

/-- The row built by step 3 for a star, with the default column names:
`add_row()` then `setattr` of name, description, URL in that order. -/
def newStarRow (i : Nat) (s : Star) : Row :=
  setField (setFieldOpt (setField { id := i, fields := [] } "Name" s.name)
    "Description" s.description) "URL" s.url

/-- The description value (raw, possibly `None`) that step 4 writes to
the row handle `i`, if any: the handle must be an indexed row with empty
description field whose URL has a star. -/
def bfValue (description_col_name : String) (starsIdx : List (String × Star))
    (idx : List (String × Row)) (i : Nat) : Option (Option String) :=
  match idx.find? (fun p => p.2.id = i) with
  | some p =>
    if (getField p.2 description_col_name).length = 0 then
      (dictFind starsIdx p.1).map (fun s => s.description)
    else none
  | none => none

/-- The row update step 4 performs on the whole table, per row. -/
def bfUpdate (description_col_name : String) (starsIdx : List (String × Star))
    (idx : List (String × Row)) (r : Row) : Row :=
  match bfValue description_col_name starsIdx idx r.id with
  | some v => setFieldOpt r description_col_name v
  | none => r

/-- Whether step 5 deletes the row handle `i`: some indexed row has this
handle and its URL matches no star. -/
def orphanDead (starsIdx : List (String × Star)) (idx : List (String × Row))
    (i : Nat) : Bool :=
  idx.any (fun p => !(dictMem p.1 starsIdx) && p.2.id = i)


/-! ## Basic lemmas: slugs, fields, dicts -/

theorem slug_URL : slug "URL" = "url" := by decide

theorem slug_url : slug "url" = "url" := by decide

theorem slug_Name : slug "Name" = "name" := by decide

theorem slug_Description : slug "Description" = "description" := by decide

theorem getField_congr (r : Row) {c c' : String} (h : slug c = slug c') :
    getField r c = getField r c' := by
  simp only [getField, getFieldList, h]

theorem getField_URL_eq_url (r : Row) : getField r "URL" = getField r "url" :=
  getField_congr r (by rw [slug_URL, slug_url])

theorem getFieldList_nil (c : String) : getFieldList [] c = "" := rfl

theorem getFieldList_cons (k w : String) (l : List (String × String)) (c : String) :
    getFieldList ((k, w) :: l) c = if slug k = slug c then w else getFieldList l c := by
  by_cases h : slug k = slug c <;>
    simp [getFieldList, List.find?_cons, h]

theorem getFieldList_set_self {c c' : String} (h : slug c' = slug c) (v : String)
    (l : List (String × String)) :
    getFieldList (setFieldList c v l) c' = v := by
  induction l with
  | nil => simp [setFieldList, getFieldList_cons, h.symm]
  | cons kv rest ih =>
    obtain ⟨k, w⟩ := kv
    by_cases hk : slug k = slug c
    · rw [setFieldList, if_pos hk, getFieldList_cons, if_pos (by rw [hk, ← h])]
    · rw [setFieldList, if_neg hk, getFieldList_cons,
        if_neg (fun hh => hk (by rw [hh, h])), ih]

theorem getField_setField_self {c c' : String} (h : slug c' = slug c)
    (r : Row) (v : String) : getField (setField r c v) c' = v :=
  getFieldList_set_self h v r.fields

theorem getFieldList_set_ne {c c' : String} (h : slug c' ≠ slug c) (v : String)
    (l : List (String × String)) :
    getFieldList (setFieldList c v l) c' = getFieldList l c' := by
  induction l with
  | nil =>
    rw [setFieldList, getFieldList_cons, if_neg (fun hh => h hh.symm)]
  | cons kv rest ih =>
    obtain ⟨k, w⟩ := kv
    by_cases hk : slug k = slug c
    · rw [setFieldList, if_pos hk, getFieldList_cons,
        if_neg (fun hh => h (by rw [← hh, hk])), getFieldList_cons,
        if_neg (fun hh => h (by rw [← hh, hk]))]
    · rw [setFieldList, if_neg hk, getFieldList_cons, getFieldList_cons, ih]

theorem getField_setField_ne {c c' : String} (h : slug c' ≠ slug c)
    (r : Row) (v : String) : getField (setField r c v) c' = getField r c' :=
  getFieldList_set_ne h v r.fields

theorem getField_setFieldOpt_self {c c' : String} (h : slug c' = slug c)
    (r : Row) (v : Option String) :
    getField (setFieldOpt r c v) c' = v.getD "" :=
  getField_setField_self h r (v.getD "")

theorem getField_setFieldOpt_ne {c c' : String} (h : slug c' ≠ slug c)
    (r : Row) (v : Option String) :
    getField (setFieldOpt r c v) c' = getField r c' :=
  getField_setField_ne h r (v.getD "")

theorem id_setField (r : Row) (c v : String) : (setField r c v).id = r.id := rfl

theorem id_setFieldOpt (r : Row) (c : String) (v : Option String) :
    (setFieldOpt r c v).id = r.id := rfl

theorem string_length_eq_zero {s : String} : s.length = 0 ↔ s = "" := by
  constructor
  · intro h
    cases s with
    | mk data =>
      have hd : data = [] := List.length_eq_zero.mp h
      rw [hd]
  · intro h
    rw [h]
    rfl

/-! Dict lemmas -/

theorem dictFind_nil {α : Type} (k : String) : dictFind ([] : List (String × α)) k = none := rfl

theorem dictFind_cons {α : Type} (p : String × α) (d : List (String × α)) (k : String) :
    dictFind (p :: d) k = if p.1 = k then some p.2 else dictFind d k := by
  by_cases h : p.1 = k <;> simp [dictFind, List.find?_cons, h]

theorem dictMem_nil {α : Type} (k : String) : dictMem k ([] : List (String × α)) = false := rfl

theorem dictMem_cons {α : Type} (p : String × α) (d : List (String × α)) (k : String) :
    dictMem k (p :: d) = if p.1 = k then true else dictMem k d := by
  by_cases h : p.1 = k <;> simp [dictMem, h]

theorem dictFind_mem {α : Type} {d : List (String × α)} {k : String} {v : α}
    (h : dictFind d k = some v) : (k, v) ∈ d := by
  induction d with
  | nil => simp [dictFind_nil] at h
  | cons p rest ih =>
    rw [dictFind_cons] at h
    by_cases hp : p.1 = k
    · rw [if_pos hp] at h
      have : p = (k, v) := by
        cases p
        simp_all
      simp [this]
    · rw [if_neg hp] at h
      exact List.mem_cons_of_mem _ (ih h)

theorem dictMem_eq_isSome {α : Type} (d : List (String × α)) (k : String) :
    dictMem k d = (dictFind d k).isSome := by
  induction d with
  | nil => rfl
  | cons p rest ih =>
    rw [dictMem_cons, dictFind_cons]
    by_cases h : p.1 = k
    · simp [h]
    · simp [h, ih]

theorem dictMem_iff_exists {α : Type} {d : List (String × α)} {k : String} :
    dictMem k d = true ↔ ∃ v, (k, v) ∈ d := by
  induction d with
  | nil => simp [dictMem_nil]
  | cons p rest ih =>
    rw [dictMem_cons]
    by_cases h : p.1 = k
    · simp only [if_pos h, true_iff]
      exact ⟨p.2, by cases p; simp_all⟩
    · simp only [if_neg h, ih]
      constructor
      · rintro ⟨v, hv⟩
        exact ⟨v, List.mem_cons_of_mem _ hv⟩
      · rintro ⟨v, hv⟩
        rcases List.mem_cons.mp hv with h1 | h1
        · exact absurd (congrArg Prod.fst h1.symm) h
        · exact ⟨v, h1⟩

theorem dictFind_map_update_self {α : Type} (k : String) (v : α) :
    ∀ d : List (String × α), (∃ p ∈ d, p.1 = k) →
      dictFind (d.map (fun p => if p.1 = k then (k, v) else p)) k = some v := by
  intro d
  induction d with
  | nil => rintro ⟨p, hp, -⟩; simp at hp
  | cons q rest ih =>
    intro hex
    rw [List.map_cons]
    by_cases hq : q.1 = k
    · rw [if_pos hq, dictFind_cons, if_pos rfl]
    · rw [if_neg hq, dictFind_cons, if_neg hq]
      apply ih
      rcases hex with ⟨p, hp, hk⟩
      rcases List.mem_cons.mp hp with h1 | h1
      · exact absurd (h1 ▸ hk) hq
      · exact ⟨p, h1, hk⟩

theorem dictFind_map_update_ne {α : Type} {k k' : String} (h : k' ≠ k) (v : α) :
    ∀ d : List (String × α),
      dictFind (d.map (fun p => if p.1 = k then (k, v) else p)) k' = dictFind d k' := by
  intro d
  induction d with
  | nil => rfl
  | cons q rest ih =>
    rw [List.map_cons]
    by_cases hq : q.1 = k
    · rw [if_pos hq, dictFind_cons, dictFind_cons]
      have h1 : ¬ ((k, v).1 = k') := fun hh => h hh.symm
      have h2 : ¬ (q.1 = k') := by rw [hq]; exact fun hh => h hh.symm
      rw [if_neg h1, if_neg h2]
      exact ih
    · rw [if_neg hq, dictFind_cons, dictFind_cons]
      by_cases hq' : q.1 = k'
      · rw [if_pos hq', if_pos hq']
      · rw [if_neg hq', if_neg hq']
        exact ih

theorem dictFind_append_singleton_ne {α : Type} {k k' : String} (h : k' ≠ k) (v : α) :
    ∀ d : List (String × α), dictFind (d ++ [(k, v)]) k' = dictFind d k' := by
  intro d
  induction d with
  | nil =>
    rw [List.nil_append, dictFind_cons, if_neg (fun hh => h hh.symm)]
  | cons q rest ih =>
    rw [List.cons_append, dictFind_cons, dictFind_cons]
    by_cases hq : q.1 = k'
    · rw [if_pos hq, if_pos hq]
    · rw [if_neg hq, if_neg hq]
      exact ih

theorem dictFind_append_singleton_none {α : Type} {d : List (String × α)} {k : String}
    (h : dictFind d k = none) (v : α) : dictFind (d ++ [(k, v)]) k = some v := by
  induction d with
  | nil =>
    rw [List.nil_append, dictFind_cons, if_pos rfl]
  | cons q rest ih =>
    rw [dictFind_cons] at h
    by_cases hq : q.1 = k
    · rw [if_pos hq] at h; exact absurd h (by simp)
    · rw [if_neg hq] at h
      rw [List.cons_append, dictFind_cons, if_neg hq]
      exact ih h

theorem dictFind_insert_self {α : Type} (d : List (String × α)) (k : String) (v : α) :
    dictFind (dictInsert d k v) k = some v := by
  unfold dictInsert
  by_cases h : d.any (fun p => p.1 = k) = true
  · rw [if_pos h]
    apply dictFind_map_update_self
    simpa [List.any_eq_true] using h
  · rw [if_neg h]
    apply dictFind_append_singleton_none
    rw [← Option.not_isSome_iff_eq_none, ← dictMem_eq_isSome]
    intro hc
    exact h (by simpa [dictMem, List.any_eq_true] using dictMem_iff_exists.mp hc)

theorem dictFind_insert_ne {α : Type} (d : List (String × α)) {k k' : String}
    (h : k' ≠ k) (v : α) : dictFind (dictInsert d k v) k' = dictFind d k' := by
  unfold dictInsert
  by_cases hmem : d.any (fun p => p.1 = k) = true
  · rw [if_pos hmem]
    exact dictFind_map_update_ne h v d
  · rw [if_neg hmem]
    exact dictFind_append_singleton_ne h v d

theorem dictMem_insert {α : Type} (d : List (String × α)) (k k' : String) (v : α) :
    dictMem k' (dictInsert d k v) = (dictMem k' d || decide (k' = k)) := by
  by_cases h : k' = k
  · subst h
    rw [dictMem_eq_isSome, dictFind_insert_self]
    simp
  · rw [dictMem_eq_isSome, dictFind_insert_ne d h, ← dictMem_eq_isSome]
    simp [h]

/-- `dictInsert` with a fresh key appends at the end. -/
theorem dictInsert_of_not_mem {α : Type} {d : List (String × α)} {k : String}
    (h : dictMem k d = false) (v : α) : dictInsert d k v = d ++ [(k, v)] := by
  unfold dictInsert
  rw [if_neg]
  intro hc
  have : dictMem k d = true := hc
  rw [h] at this
  exact Bool.false_ne_true this

/-! ## The fetcher: pagination and transport failure -/

/-- One unfolding of the pagination loop on a nonempty transport. -/
theorem get_starsAux_cons (user : String) (cursor : Option String) (acc : List Star)
    (r : Response) (rest : List Response) :
    get_starsAux user cursor acc (r :: rest) =
      if r.status = 200 then
        (if r.page.hasNextPage = true then
          (starQuery user cursor ::
              (get_starsAux user r.page.endCursor (acc ++ r.page.edges) rest).1,
            (get_starsAux user r.page.endCursor (acc ++ r.page.edges) rest).2)
        else ([starQuery user cursor], FetchResult.ok (acc ++ r.page.edges)))
      else
        ([starQuery user cursor],
          FetchResult.fail { status := r.status, query := starQuery user cursor }) := by
  by_cases h : r.status = 200
  · simp [get_starsAux, gh_query, h]
  · simp [get_starsAux, gh_query, h]

theorem get_starsAux_ok_spec (user : String) :
    ∀ (resps : List Response) (cursor : Option String) (acc : List Star),
      (∀ r ∈ resps, r.status = 200) → consistentPages resps →
      get_starsAux user cursor acc resps =
        ((cursor :: resps.dropLast.map (fun r => r.page.endCursor)).map (starQuery user),
          FetchResult.ok (acc ++ (resps.map (fun r => r.page.edges)).flatten)) := by
  intro resps
  induction resps with
  | nil => intro cursor acc _ hcons; exact absurd hcons id
  | cons r rest ih =>
    intro cursor acc h200 hcons
    have hr200 : r.status = 200 := h200 r (List.mem_cons_self r rest)
    cases rest with
    | nil =>
      have hlast : r.page.hasNextPage = false := hcons
      rw [get_starsAux_cons, if_pos hr200, hlast]
      simp
    | cons r' rest' =>
      obtain ⟨hnext, hcons'⟩ := hcons
      have hrec := ih r.page.endCursor (acc ++ r.page.edges)
        (fun x hx => h200 x (List.mem_cons_of_mem r hx)) hcons'
      rw [get_starsAux_cons, if_pos hr200, hnext, if_pos rfl, hrec]
      simp [List.append_assoc]

/-- C4: For every remote source that returns pages of at most 100 items
with a consistent hasNextPage/endCursor sequence, `get_stars` returns
exactly the concatenation of all pages' items in page order (hence no
duplicates and no omissions beyond those of the source itself), for any
number of pages; one request is issued per page, the cursor of request
`i+1` is page `i`'s `endCursor`, a cursor is attached to a request only
when the stored cursor was supplied (and truthy), and the loop stops
exactly at the page reporting `hasNextPage = false`. -/
theorem get_stars_pagination_complete (user : String) (resps : List Response)
    (hsz : ∀ r ∈ resps, r.page.edges.length ≤ 100)
    (h200 : ∀ r ∈ resps, r.status = 200)
    (hcons : consistentPages resps) :
    (get_stars user resps).2
        = FetchResult.ok ((resps.map (fun r => r.page.edges)).flatten) ∧
    (get_stars user resps).1
        = (none :: resps.dropLast.map (fun r => r.page.endCursor)).map (starQuery user) ∧
    (∀ e : Option String, cursorTruthy e = false → (starQuery user e).after = none) ∧
    (∀ (e : Option String) (c : String), (starQuery user e).after = some c → e = some c) := by
  have hmain := get_starsAux_ok_spec user resps none [] h200 hcons
  refine ⟨?_, ?_, ?_, ?_⟩
  · rw [get_stars, hmain]
    simp
  · rw [get_stars, hmain]
  · intro e he
    simp [starQuery, afterClause, he]
  · intro e c hc
    simp only [starQuery, afterClause] at hc
    by_cases h : cursorTruthy e = true
    · rw [if_pos h] at hc
      cases e with
      | none => exact absurd h (by simp [cursorTruthy])
      | some c' => simpa using hc
    · rw [if_neg h] at hc
      exact absurd hc (by simp)

theorem get_stars_pagination_complete_witness :
    (∀ r ∈ [Response.mk 200 (Page.mk [Star.mk "A" "u1" (some "d1")] true (some "c1")),
            Response.mk 200 (Page.mk [Star.mk "B" "u2" none] false none)],
        r.page.edges.length ≤ 100) ∧
    (get_stars "me" [Response.mk 200 (Page.mk [Star.mk "A" "u1" (some "d1")] true (some "c1")),
            Response.mk 200 (Page.mk [Star.mk "B" "u2" none] false none)]).2
      = FetchResult.ok [Star.mk "A" "u1" (some "d1"), Star.mk "B" "u2" none] := by
  constructor
  · decide
  · have h := get_stars_pagination_complete "me"
      [Response.mk 200 (Page.mk [Star.mk "A" "u1" (some "d1")] true (some "c1")),
       Response.mk 200 (Page.mk [Star.mk "B" "u2" none] false none)]
      (by decide) (by decide) (by constructor <;> rfl)
    rw [h.1]
    rfl

theorem get_starsAux_fail_spec (user : String) :
    ∀ (k : Nat) (resps : List Response) (cursor : Option String) (acc : List Star)
      (hk : k < resps.length),
      (resps.get ⟨k, hk⟩).status ≠ 200 →
      (∀ (j : Nat) (hj : j < k),
        (resps.get ⟨j, lt_trans hj hk⟩).status = 200 ∧
        (resps.get ⟨j, lt_trans hj hk⟩).page.hasNextPage = true) →
      get_starsAux user cursor acc resps =
        ((cursor :: (resps.take k).map (fun r => r.page.endCursor)).map (starQuery user),
          FetchResult.fail
            { status := (resps.get ⟨k, hk⟩).status,
              query := starQuery user
                ((cursor :: (resps.take k).map (fun r => r.page.endCursor)).getLastD none) }) := by
  intro k
  induction k with
  | zero =>
    intro resps cursor acc hk hfail _
    cases resps with
    | nil => simp at hk
    | cons r rest =>
      have hr : (r :: rest).get ⟨0, hk⟩ = r := rfl
      rw [hr] at hfail
      rw [get_starsAux_cons, if_neg hfail]
      simp
  | succ k ih =>
    intro resps cursor acc hk hfail hpre
    cases resps with
    | nil => simp at hk
    | cons r rest =>
      have h0 := hpre 0 (Nat.succ_pos k)
      have hr200 : r.status = 200 := h0.1
      have hrnext : r.page.hasNextPage = true := h0.2
      have hk' : k < rest.length := Nat.lt_of_succ_lt_succ hk
      have hgetk : (r :: rest).get ⟨k + 1, hk⟩ = rest.get ⟨k, hk'⟩ := rfl
      rw [hgetk] at hfail
      have hpre' : ∀ (j : Nat) (hj : j < k),
          (rest.get ⟨j, lt_trans hj hk'⟩).status = 200 ∧
          (rest.get ⟨j, lt_trans hj hk'⟩).page.hasNextPage = true := by
        intro j hj
        exact hpre (j + 1) (Nat.succ_lt_succ hj)
      have hrec := ih rest r.page.endCursor (acc ++ r.page.edges) hk' hfail hpre'
      rw [get_starsAux_cons, if_pos hr200, hrnext, if_pos rfl, hrec, hgetk]
      simp only [List.take_succ_cons, List.map_cons, List.getLastD_cons]

theorem get_starsAux_ok_all_200 (user : String) :
    ∀ (resps : List Response) (cursor : Option String) (acc l : List Star),
      (get_starsAux user cursor acc resps).2 = FetchResult.ok l →
      ∀ r ∈ resps.take (get_starsAux user cursor acc resps).1.length, r.status = 200 := by
  intro resps
  induction resps with
  | nil =>
    intro cursor acc l hok
    simp [get_starsAux] at hok
  | cons r rest ih =>
    intro cursor acc l hok
    by_cases h200 : r.status = 200
    · by_cases hnext : r.page.hasNextPage = true
      · rw [get_starsAux_cons, if_pos h200, hnext, if_pos rfl] at hok ⊢
        intro x hx
        simp only [List.length_cons, List.take_succ_cons] at hx
        rcases List.mem_cons.mp hx with h1 | h1
        · rw [h1]; exact h200
        · exact ih r.page.endCursor (acc ++ r.page.edges) l hok x h1
      · rw [get_starsAux_cons, if_pos h200, if_neg hnext] at hok ⊢
        intro x hx
        simp only [List.length_cons, List.length_nil, List.take_succ_cons,
          List.take_nil] at hx
        rcases List.mem_cons.mp hx with h1 | h1
        · rw [h1]; exact h200
        · simp at h1
    · rw [get_starsAux_cons, if_neg h200] at hok
      exact absurd hok (by simp)

/-- C8: a non-success transport response aborts the fetch.  First
conjunct: if request `k` is the first to receive a non-200 status (all
earlier requests succeeded with further pages), `get_stars` surfaces a
`QueryError` carrying that status code and the `k`-th query, no star
list is returned, and exactly `k + 1` requests were issued (no retry, no
request after the failure).  Second conjunct: a successful fetch implies
every issued page request returned status 200. -/
theorem get_stars_transport_failure (user : String) (resps : List Response) :
    (∀ (k : Nat) (hk : k < resps.length),
      (resps.get ⟨k, hk⟩).status ≠ 200 →
      (∀ (j : Nat) (hj : j < k),
        (resps.get ⟨j, lt_trans hj hk⟩).status = 200 ∧
        (resps.get ⟨j, lt_trans hj hk⟩).page.hasNextPage = true) →
      (get_stars user resps).2 = FetchResult.fail
          { status := (resps.get ⟨k, hk⟩).status,
            query := starQuery user
              ((none :: (resps.take k).map (fun r => r.page.endCursor)).getLastD none) } ∧
      (∀ l : List Star, (get_stars user resps).2 ≠ FetchResult.ok l) ∧
      (get_stars user resps).1.length = k + 1) ∧
    (∀ l : List Star, (get_stars user resps).2 = FetchResult.ok l →
      ∀ r ∈ resps.take (get_stars user resps).1.length, r.status = 200) := by
  constructor
  · intro k hk hfail hpre
    have h := get_starsAux_fail_spec user k resps none [] hk hfail hpre
    rw [get_stars, h]
    refine ⟨rfl, ?_, ?_⟩
    · intro l hc
      simp at hc
    · simp only [List.map_cons, List.length_cons, List.length_map]
      rw [List.length_take_of_le (Nat.le_of_lt hk)]
  · intro l hok x hx
    exact get_starsAux_ok_all_200 user resps none [] l hok x hx

theorem get_stars_transport_failure_witness :
    (get_stars "me" [Response.mk 200 (Page.mk [] true (some "c1")),
        Response.mk 403 (Page.mk [] false none)]).2
      = FetchResult.fail
          { status := 403, query := { user := "me", firstCount := 100, after := some "c1" } } ∧
    (get_stars "me" [Response.mk 200 (Page.mk [] true (some "c1")),
        Response.mk 403 (Page.mk [] false none)]).1.length = 2 := by
  have h := (get_stars_transport_failure "me"
      [Response.mk 200 (Page.mk [] true (some "c1")),
       Response.mk 403 (Page.mk [] false none)]).1 1 (by decide)
    (by intro hc; simp at hc)
    (by
      intro j hj
      have hj0 : j = 0 := Nat.lt_one_iff.mp hj
      subst hj0
      exact ⟨rfl, rfl⟩)
  refine ⟨?_, h.2.2⟩
  rw [h.1]
  rfl

/-! ## Characterizing the row index (default column names) -/

theorem dictMem_iff_mem_keys {α : Type} {d : List (String × α)} {k : String} :
    dictMem k d = true ↔ k ∈ d.map Prod.fst := by
  rw [dictMem_iff_exists]
  constructor
  · rintro ⟨v, hv⟩
    exact List.mem_map.mpr ⟨(k, v), hv, rfl⟩
  · intro h
    rcases List.mem_map.mp h with ⟨p, hp, hk⟩
    exact ⟨p.2, by cases p; simp_all⟩

theorem pair_mem_iff_dictFind {α : Type} {d : List (String × α)}
    (hnd : (d.map Prod.fst).Nodup) {u : String} {v : α} :
    (u, v) ∈ d ↔ dictFind d u = some v := by
  constructor
  · intro hmem
    induction d with
    | nil => simp at hmem
    | cons p rest ih =>
      rw [List.map_cons, List.nodup_cons] at hnd
      rcases List.mem_cons.mp hmem with h1 | h1
      · rw [← h1, dictFind_cons, if_pos rfl]
      · have hne : p.1 ≠ u := by
          intro hc
          exact hnd.1 (hc ▸ List.mem_map.mpr ⟨(u, v), h1, rfl⟩)
        rw [dictFind_cons, if_neg hne]
        exact ih hnd.2 h1
  · exact dictFind_mem

/-- The invariant form of step 2: with an accumulator whose entries map
`row.url`-field values to their rows, the final lookup at `u` is either
the accumulator's answer or the first scanned row whose `url` field is
`u` (and `u` must be non-empty). -/
theorem rowsIndexAux_find_spec :
    ∀ (rows : List Row) (acc : List (String × Row)),
      (∀ p ∈ acc, p.1 = getField p.2 "url") →
      ∀ u : String,
        dictFind (rowsIndexAux "URL" acc rows).1 u =
          (dictFind acc u).or
            (if u = "" then none else rows.find? (fun r => getField r "url" = u)) := by
  intro rows
  induction rows with
  | nil =>
    intro acc _ u
    simp only [rowsIndexAux, List.find?_nil]
    cases dictFind acc u <;> simp
  | cons r rest ih =>
    intro acc hacc u
    by_cases hemp : (getField r "URL").length = 0
    · have hemp' : getField r "url" = "" := by
        rw [← getField_URL_eq_url]
        exact string_length_eq_zero.mp hemp
      rw [rowsIndexAux, if_pos hemp, ih acc hacc u]
      congr 1
      by_cases hu : u = ""
      · rw [if_pos hu, if_pos hu]
      · rw [if_neg hu, if_neg hu, List.find?_cons, hemp']
        have hnu : ¬ ("" = u) := fun hc => hu hc.symm
        simp [hnu]
    · by_cases hdup : dictMem (getField r "URL") acc = true
      · rw [rowsIndexAux, if_neg hemp, if_pos hdup, ih acc hacc u]
        by_cases hru : getField r "url" = u
        · have hmem : (dictFind acc u).isSome := by
            rw [← dictMem_eq_isSome, ← hru, ← getField_URL_eq_url]
            exact hdup
          rcases Option.isSome_iff_exists.mp hmem with ⟨v, hv⟩
          rw [hv]
          simp
        · congr 1
          by_cases hu : u = ""
          · rw [if_pos hu, if_pos hu]
          · rw [if_neg hu, if_neg hu, List.find?_cons]
            simp [hru]
      · have hdup' : dictMem (getField r "url") acc = false := by
          rw [← getField_URL_eq_url]
          exact Bool.not_eq_true _ |>.mp hdup
        rw [rowsIndexAux, if_neg hemp, if_neg hdup]
        have hacc' : ∀ p ∈ dictInsert acc (getField r "url") r,
            p.1 = getField p.2 "url" := by
          rw [dictInsert_of_not_mem hdup']
          intro p hp
          rcases List.mem_append.mp hp with h1 | h1
          · exact hacc p h1
          · have hp1 : p = (getField r "url", r) := by simpa using h1
            rw [hp1]
        rw [ih _ hacc' u]
        have hne : ¬ (getField r "url") = "" := by
          intro hc
          apply hemp
          rw [string_length_eq_zero, getField_URL_eq_url]
          exact hc
        by_cases hru : getField r "url" = u
        · rw [← hru, dictFind_insert_self]
          have haccnone : dictFind acc (getField r "url") = none := by
            rw [← Option.not_isSome_iff_eq_none, ← dictMem_eq_isSome, hdup']
            simp
          rw [haccnone, if_neg hne, List.find?_cons]
          simp
          exact hne
        · rw [dictFind_insert_ne acc (fun hc => hru hc.symm) r]
          congr 1
          by_cases hu : u = ""
          · rw [if_pos hu, if_pos hu]
          · rw [if_neg hu, if_neg hu, List.find?_cons]
            simp [hru]

/-- Lookup in the step-2 index: `u` maps to the first row of the table
whose `url`-slug field equals `u`, and empty URLs are never indexed. -/
theorem rows_by_url_find (rows : List Row) (u : String) :
    dictFind (rows_by_url "URL" rows).1 u =
      if u = "" then none else rows.find? (fun r => getField r "url" = u) := by
  have h := rowsIndexAux_find_spec rows [] (by intro p hp; simp at hp) u
  rw [rows_by_url, h]
  rfl

theorem rowsIndexAux_keys_nodup :
    ∀ (rows : List Row) (acc : List (String × Row)),
      (acc.map Prod.fst).Nodup →
      ((rowsIndexAux "URL" acc rows).1.map Prod.fst).Nodup := by
  intro rows
  induction rows with
  | nil => intro acc h; exact h
  | cons r rest ih =>
    intro acc hacc
    by_cases hemp : (getField r "URL").length = 0
    · rw [rowsIndexAux, if_pos hemp]
      exact ih acc hacc
    · by_cases hdup : dictMem (getField r "URL") acc = true
      · rw [rowsIndexAux, if_neg hemp, if_pos hdup]
        exact ih acc hacc
      · have hdup' : dictMem (getField r "url") acc = false := by
          rw [← getField_URL_eq_url]
          exact Bool.not_eq_true _ |>.mp hdup
        rw [rowsIndexAux, if_neg hemp, if_neg hdup]
        apply ih
        rw [dictInsert_of_not_mem hdup', List.map_append, List.nodup_append]
        refine ⟨hacc, by simp, ?_⟩
        intro x hx
        simp only [List.map_cons, List.map_nil, List.mem_singleton]
        intro hc
        rw [hc] at hx
        have hmm : dictMem (getField r "url") acc = true := dictMem_iff_mem_keys.mpr hx
        rw [hdup'] at hmm
        exact Bool.false_ne_true hmm

/-- The step-2 index has pairwise distinct keys. -/
theorem rows_by_url_keys_nodup (rows : List Row) :
    ((rows_by_url "URL" rows).1.map Prod.fst).Nodup :=
  rowsIndexAux_keys_nodup rows [] (by simp)

/-- Membership of an entry in the step-2 index: the key is non-empty and
the row is the first of the table whose `url`-slug field equals it. -/
theorem rows_by_url_pair_mem (rows : List Row) (u : String) (r : Row) :
    (u, r) ∈ (rows_by_url "URL" rows).1 ↔
      (u ≠ "" ∧ rows.find? (fun x => getField x "url" = u) = some r) := by
  rw [pair_mem_iff_dictFind (rows_by_url_keys_nodup rows), rows_by_url_find]
  by_cases hu : u = ""
  · rw [if_pos hu]
    simp [hu]
  · rw [if_neg hu]
    simp [hu]

theorem rows_by_url_entry_props {rows : List Row} {u : String} {r : Row}
    (h : (u, r) ∈ (rows_by_url "URL" rows).1) :
    r ∈ rows ∧ getField r "url" = u ∧ u ≠ "" := by
  rcases (rows_by_url_pair_mem rows u r).mp h with ⟨hu, hfind⟩
  refine ⟨List.mem_of_find?_eq_some hfind, ?_, hu⟩
  have := List.find?_some hfind
  simpa using this

/-- Every id of the table is below `freshId`. -/
theorem id_lt_freshId {rows : List Row} {r : Row} (h : r ∈ rows) :
    r.id < freshId rows := by
  induction rows with
  | nil => simp at h
  | cons x rest ih =>
    rcases List.mem_cons.mp h with h1 | h1
    · rw [h1, freshId, List.foldr_cons]
      exact Nat.lt_of_lt_of_le (Nat.lt_succ_self _) (Nat.le_max_left _ _)
    · rw [freshId, List.foldr_cons]
      exact Nat.lt_of_lt_of_le (ih h1) (Nat.le_max_right _ _)

theorem nodup_map_of_nodup_map {α β γ : Type} (f : α → β) (g : α → γ)
    (l : List α) (hf : (l.map f).Nodup)
    (h : ∀ x ∈ l, ∀ y ∈ l, g x = g y → f x = f y) : (l.map g).Nodup := by
  induction l with
  | nil => simp
  | cons a rest ih =>
    rw [List.map_cons, List.nodup_cons] at hf ⊢
    refine ⟨?_, ih hf.2 (fun x hx y hy => h x (List.mem_cons_of_mem a hx)
      y (List.mem_cons_of_mem a hy))⟩
    intro hc
    rcases List.mem_map.mp hc with ⟨y, hy, hgy⟩
    have := h a (List.mem_cons_self a rest) y (List.mem_cons_of_mem a hy) hgy.symm
    exact hf.1 (this ▸ List.mem_map.mpr ⟨y, hy, rfl⟩)

/-- On a table with pairwise distinct handles, the indexed entries have
pairwise distinct handles. -/
theorem rows_by_url_ids_nodup {rows : List Row}
    (hids : (rows.map Row.id).Nodup) :
    (((rows_by_url "URL" rows).1).map (fun p => p.2.id)).Nodup := by
  apply nodup_map_of_nodup_map Prod.fst (fun p => p.2.id) _
    (rows_by_url_keys_nodup rows)
  intro x hx y hy hxy
  obtain ⟨ux, rx⟩ := x
  obtain ⟨uy, ry⟩ := y
  have hpx := rows_by_url_entry_props hx
  have hpy := rows_by_url_entry_props hy
  have hrxy : rx = ry :=
    List.inj_on_of_nodup_map hids hpx.1 hpy.1 hxy
  simp only []
  rw [← hpx.2.1, ← hpy.2.1, hrxy]

/-- C3 (code bug evidence): with a non-default URL column name, step 2
keys the index by `row.url` — the field whose column name slugs to
`url`, i.e. the default `URL` column — not by the configured
`url_col_name` field.  With `url_col_name = "Link"` and a row whose
`Link` field is `"u1"` but whose `URL` column holds `"x"`, the built
index maps `"x"` (not the row's configured URL field value `"u1"`) to
the row. -/
theorem rows_by_url_ignores_url_col_name :
    (rows_by_url "Link"
        [{ id := 0,
           fields := [("Name", "A"), ("URL", "x"), ("Link", "u1"), ("Description", "d")] }]).1
      = [("x",
          { id := 0,
            fields := [("Name", "A"), ("URL", "x"), ("Link", "u1"), ("Description", "d")] })] ∧
    getField
        { id := 0,
          fields := [("Name", "A"), ("URL", "x"), ("Link", "u1"), ("Description", "d")] }
        "Link" = "u1" ∧
    ("u1" : String) ≠ "x" := by
  refine ⟨?_, ?_, ?_⟩ <;> decide

/-! ## Characterizing the star index -/

theorem stars_by_url_aux_mem :
    ∀ (stars : List Star) (d : List (String × Star)) (u : String),
      dictMem u (stars.foldl (fun d s => dictInsert d s.url s) d)
        = (dictMem u d || stars.any (fun s => s.url = u)) := by
  intro stars
  induction stars with
  | nil => intro d u; simp
  | cons s rest ih =>
    intro d u
    rw [List.foldl_cons, ih, dictMem_insert]
    by_cases h : u = s.url
    · simp [h]
    · have h2 : ¬ (s.url = u) := fun hc => h hc.symm
      simp [h, h2]

/-- A URL is a key of the star index iff some star carries it. -/
theorem stars_by_url_mem (stars : List Star) (u : String) :
    dictMem u (stars_by_url stars) = stars.any (fun s => s.url = u) := by
  rw [stars_by_url, stars_by_url_aux_mem]
  simp [dictMem_nil]

theorem stars_by_url_aux_find_source :
    ∀ (stars : List Star) (d : List (String × Star)) (u : String) (s : Star),
      dictFind (stars.foldl (fun d x => dictInsert d x.url x) d) u = some s →
      (s ∈ stars ∧ s.url = u) ∨ dictFind d u = some s := by
  intro stars
  induction stars with
  | nil => intro d u s h; exact Or.inr h
  | cons x rest ih =>
    intro d u s h
    rw [List.foldl_cons] at h
    rcases ih (dictInsert d x.url x) u s h with h1 | h1
    · exact Or.inl ⟨List.mem_cons_of_mem x h1.1, h1.2⟩
    · by_cases hu : u = x.url
      · rw [hu, dictFind_insert_self] at h1
        have hs : s = x := by injection h1; simp_all
        exact Or.inl ⟨hs ▸ List.mem_cons_self x rest, by rw [hs, hu]⟩
      · rw [dictFind_insert_ne d hu x] at h1
        exact Or.inr h1

/-- Whatever the star index returns comes from the star list and has the
looked-up URL. -/
theorem stars_by_url_find_source {stars : List Star} {u : String} {s : Star}
    (h : dictFind (stars_by_url stars) u = some s) : s ∈ stars ∧ s.url = u := by
  rcases stars_by_url_aux_find_source stars [] u s h with h1 | h1
  · exact h1
  · exact absurd h1 (by simp [dictFind_nil])

theorem stars_by_url_aux_find_of_no_url :
    ∀ (stars : List Star) (d : List (String × Star)) (u : String),
      (∀ s ∈ stars, s.url ≠ u) →
      dictFind (stars.foldl (fun d x => dictInsert d x.url x) d) u = dictFind d u := by
  intro stars
  induction stars with
  | nil => intro d u _; rfl
  | cons x rest ih =>
    intro d u hne
    rw [List.foldl_cons,
      ih _ u (fun s hs => hne s (List.mem_cons_of_mem x hs)),
      dictFind_insert_ne d (fun hc => hne x (List.mem_cons_self x rest) hc.symm) x]

/-- With pairwise distinct star URLs, the star index maps each star's
URL to that star. -/
theorem stars_by_url_find_self {stars : List Star}
    (hnd : (stars.map Star.url).Nodup) {s : Star} (hs : s ∈ stars) :
    dictFind (stars_by_url stars) s.url = some s := by
  rcases List.append_of_mem hs with ⟨l1, l2, rfl⟩
  rw [stars_by_url, List.foldl_append, List.foldl_cons]
  have hno : ∀ x ∈ l2, x.url ≠ s.url := by
    intro x hx hc
    rw [List.map_append, List.map_cons, List.nodup_append] at hnd
    exact (List.nodup_cons.mp hnd.2.1).1 (hc ▸ List.mem_map.mpr ⟨x, hx, rfl⟩)
  rw [stars_by_url_aux_find_of_no_url l2 _ s.url hno, dictFind_insert_self]

/-! ## Step 3: adding missing rows -/

theorem slug_Name_ne_URL : slug "Name" ≠ slug "URL" := by
  rw [slug_Name, slug_URL]; decide

theorem slug_Name_ne_Description : slug "Name" ≠ slug "Description" := by
  rw [slug_Name, slug_Description]; decide

theorem slug_Description_ne_URL : slug "Description" ≠ slug "URL" := by
  rw [slug_Description, slug_URL]; decide

theorem slug_url_eq_URL : slug "url" = slug "URL" := by
  rw [slug_url, slug_URL]

theorem newStarRow_id (i : Nat) (s : Star) : (newStarRow i s).id = i := rfl

theorem newStarRow_url (i : Nat) (s : Star) :
    getField (newStarRow i s) "url" = s.url := by
  rw [newStarRow, getField_setField_self slug_url_eq_URL]

theorem newStarRow_URL (i : Nat) (s : Star) :
    getField (newStarRow i s) "URL" = s.url := by
  rw [getField_URL_eq_url, newStarRow_url]

theorem newStarRow_Name (i : Nat) (s : Star) :
    getField (newStarRow i s) "Name" = s.name := by
  rw [newStarRow, getField_setField_ne slug_Name_ne_URL,
    getField_setFieldOpt_ne slug_Name_ne_Description,
    getField_setField_self rfl]

theorem newStarRow_Description (i : Nat) (s : Star) :
    getField (newStarRow i s) "Description" = s.description.getD "" := by
  rw [newStarRow, getField_setField_ne slug_Description_ne_URL,
    getField_setFieldOpt_self rfl]

theorem addMissing_created_mem :
    ∀ (stars : List Star) (idx : List (String × Row)) (nid : Nat),
      ∀ r ∈ (addMissing "Name" "URL" "Description" idx nid stars).1,
        ∃ s ∈ stars, ∃ i, nid ≤ i ∧ r = newStarRow i s ∧ dictMem s.url idx = false := by
  intro stars
  induction stars with
  | nil => intro idx nid r hr; simp [addMissing] at hr
  | cons s rest ih =>
    intro idx nid r hr
    by_cases hmem : dictMem s.url idx = true
    · rw [addMissing, if_pos hmem] at hr
      rcases ih idx nid r hr with ⟨x, hx, i, hi, hr2, hm⟩
      exact ⟨x, List.mem_cons_of_mem s hx, i, hi, hr2, hm⟩
    · rw [addMissing, if_neg hmem] at hr
      rcases List.mem_cons.mp hr with h1 | h1
      · exact ⟨s, List.mem_cons_self s rest, nid, Nat.le_refl nid, h1,
          Bool.not_eq_true _ |>.mp hmem⟩
      · rcases ih idx (nid + 1) r h1 with ⟨x, hx, i, hi, hr2, hm⟩
        exact ⟨x, List.mem_cons_of_mem s hx, i,
          Nat.le_of_succ_le hi, hr2, hm⟩

theorem addMissing_mem_created :
    ∀ (stars : List Star) (idx : List (String × Row)) (nid : Nat) (s : Star),
      s ∈ stars → dictMem s.url idx = false →
      ∃ i, nid ≤ i ∧ newStarRow i s ∈ (addMissing "Name" "URL" "Description" idx nid stars).1 := by
  intro stars
  induction stars with
  | nil => intro idx nid s hs; simp at hs
  | cons x rest ih =>
    intro idx nid s hs hmem
    rcases List.mem_cons.mp hs with h1 | h1
    · subst h1
      rw [addMissing, if_neg (by rw [hmem]; simp)]
      exact ⟨nid, Nat.le_refl nid, List.mem_cons_self _ _⟩
    · by_cases hx : dictMem x.url idx = true
      · rw [addMissing, if_pos hx]
        exact ih idx nid s h1 hmem
      · rw [addMissing, if_neg hx]
        rcases ih idx (nid + 1) s h1 hmem with ⟨i, hi, hmem2⟩
        exact ⟨i, Nat.le_of_succ_le hi, List.mem_cons_of_mem _ hmem2⟩

theorem addMissing_countP :
    ∀ (stars : List Star) (idx : List (String × Row)) (nid : Nat) (u : String),
      ((addMissing "Name" "URL" "Description" idx nid stars).1.countP
          (fun r => getField r "url" = u))
        = stars.countP (fun s => decide (s.url = u) && !(dictMem s.url idx)) := by
  intro stars
  induction stars with
  | nil => intro idx nid u; simp [addMissing]
  | cons s rest ih =>
    intro idx nid u
    by_cases hmem : dictMem s.url idx = true
    · rw [addMissing, if_pos hmem, List.countP_cons, ih]
      simp [hmem]
    · rw [addMissing, if_neg hmem, List.countP_cons, List.countP_cons, ih]
      have hm : dictMem s.url idx = false := Bool.not_eq_true _ |>.mp hmem
      have hgf : getField (setField (setFieldOpt
            (setField { id := nid, fields := [] } "Name" s.name)
            "Description" s.description) "URL" s.url) "url" = s.url :=
        getField_setField_self slug_url_eq_URL _ _
      by_cases hu : s.url = u
      · subst hu
        simp [hgf, hm]
      · simp [hgf, hu, hm]

theorem addMissing_ops_ge :
    ∀ (stars : List Star) (n u d : String) (idx : List (String × Row)) (nid : Nat),
      ∀ op ∈ (addMissing n u d idx nid stars).2.1, nid ≤ op.target := by
  intro stars
  induction stars with
  | nil => intro n u d idx nid op hop; simp [addMissing] at hop
  | cons s rest ih =>
    intro n u d idx nid op hop
    by_cases hmem : dictMem s.url idx = true
    · rw [addMissing, if_pos hmem] at hop
      exact ih n u d idx nid op hop
    · rw [addMissing, if_neg hmem] at hop
      rcases List.mem_cons.mp hop with h1 | h1
      · rw [h1]; exact Nat.le_refl nid
      rcases List.mem_cons.mp h1 with h2 | h2
      · rw [h2]; exact Nat.le_refl nid
      rcases List.mem_cons.mp h2 with h3 | h3
      · rw [h3]; exact Nat.le_refl nid
      rcases List.mem_cons.mp h3 with h4 | h4
      · rw [h4]; exact Nat.le_refl nid
      · exact Nat.le_of_succ_le (ih n u d idx (nid + 1) op h4)

theorem addMissing_created_ge :
    ∀ (stars : List Star) (n u d : String) (idx : List (String × Row)) (nid : Nat),
      ∀ r ∈ (addMissing n u d idx nid stars).1, nid ≤ r.id := by
  intro stars
  induction stars with
  | nil => intro n u d idx nid r hr; simp [addMissing] at hr
  | cons s rest ih =>
    intro n u d idx nid r hr
    by_cases hmem : dictMem s.url idx = true
    · rw [addMissing, if_pos hmem] at hr
      exact ih n u d idx nid r hr
    · rw [addMissing, if_neg hmem] at hr
      rcases List.mem_cons.mp hr with h1 | h1
      · rw [h1]; exact Nat.le_refl nid
      · exact Nat.le_of_succ_le (ih n u d idx (nid + 1) r h1)

theorem addMissing_skip_all :
    ∀ (stars : List Star) (n u d : String) (idx : List (String × Row)) (nid : Nat),
      (∀ s ∈ stars, dictMem s.url idx = true) →
      addMissing n u d idx nid stars = ([], [], []) := by
  intro stars
  induction stars with
  | nil => intro n u d idx nid _; rfl
  | cons s rest ih =>
    intro n u d idx nid hall
    rw [addMissing, if_pos (hall s (List.mem_cons_self s rest))]
    exact ih n u d idx nid (fun x hx => hall x (List.mem_cons_of_mem s hx))

/-! ## Step 4: backfilling empty descriptions -/

theorem backfillAux_ops_mem (dcol : String) (sIdx : List (String × Star)) :
    ∀ (idx : List (String × Row)) (t : List Row) (u : String) (r : Row) (s : Star),
      (u, r) ∈ idx → (getField r dcol).length = 0 → dictFind sIdx u = some s →
      Op.setF r.id dcol s.description ∈ (backfillAux dcol sIdx t idx).2.1 ∧
      ("Filled missing description for " ++ s.name) ∈ (backfillAux dcol sIdx t idx).2.2 := by
  intro idx
  induction idx with
  | nil => intro t u r s hmem; simp at hmem
  | cons p rest ih =>
    intro t u r s hmem hemp hfind
    obtain ⟨u0, r0⟩ := p
    rcases List.mem_cons.mp hmem with h1 | h1
    · have hu : u0 = u := (Prod.mk.injEq _ _ _ _ |>.mp h1.symm).1
      have hr : r0 = r := (Prod.mk.injEq _ _ _ _ |>.mp h1.symm).2
      subst hu hr
      rw [backfillAux, if_pos hemp, hfind]
      exact ⟨List.mem_cons_self _ _, List.mem_cons_self _ _⟩
    · by_cases h0 : (getField r0 dcol).length = 0
      · rw [backfillAux, if_pos h0]
        cases hf : dictFind sIdx u0 with
        | none =>
          exact ih t u r s h1 hemp hfind
        | some s0 =>
          have hrec := ih (applySet t r0.id dcol s0.description) u r s h1 hemp hfind
          exact ⟨List.mem_cons_of_mem _ hrec.1, List.mem_cons_of_mem _ hrec.2⟩
      · rw [backfillAux, if_neg h0]
        exact ih t u r s h1 hemp hfind

theorem backfillAux_ops_source (dcol : String) (sIdx : List (String × Star)) :
    ∀ (idx : List (String × Row)) (t : List Row) (op : Op),
      op ∈ (backfillAux dcol sIdx t idx).2.1 →
      ∃ u r, (u, r) ∈ idx ∧ (getField r dcol).length = 0 ∧
        ∃ s, dictFind sIdx u = some s ∧ op = Op.setF r.id dcol s.description := by
  intro idx
  induction idx with
  | nil => intro t op hop; simp [backfillAux] at hop
  | cons p rest ih =>
    intro t op hop
    obtain ⟨u0, r0⟩ := p
    by_cases h0 : (getField r0 dcol).length = 0
    · rw [backfillAux, if_pos h0] at hop
      cases hf : dictFind sIdx u0 with
      | none =>
        rw [hf] at hop
        rcases ih t op hop with ⟨u, r, hmem, hemp, s, hfind, hopeq⟩
        exact ⟨u, r, List.mem_cons_of_mem _ hmem, hemp, s, hfind, hopeq⟩
      | some s0 =>
        rw [hf] at hop
        rcases List.mem_cons.mp hop with h1 | h1
        · exact ⟨u0, r0, List.mem_cons_self _ _, h0, s0, hf, h1⟩
        · rcases ih (applySet t r0.id dcol s0.description) op h1 with
            ⟨u, r, hmem, hemp, s, hfind, hopeq⟩
          exact ⟨u, r, List.mem_cons_of_mem _ hmem, hemp, s, hfind, hopeq⟩
    · rw [backfillAux, if_neg h0] at hop
      rcases ih t op hop with ⟨u, r, hmem, hemp, s, hfind, hopeq⟩
      exact ⟨u, r, List.mem_cons_of_mem _ hmem, hemp, s, hfind, hopeq⟩

theorem backfillAux_noop (dcol : String) (sIdx : List (String × Star)) :
    ∀ (idx : List (String × Row)) (t : List Row),
      (∀ p ∈ idx, ¬ ((getField p.2 dcol).length = 0) ∨ dictFind sIdx p.1 = none) →
      backfillAux dcol sIdx t idx = (t, [], []) := by
  intro idx
  induction idx with
  | nil => intro t _; rfl
  | cons p rest ih =>
    intro t hall
    obtain ⟨u0, r0⟩ := p
    rcases hall (u0, r0) (List.mem_cons_self _ _) with h1 | h1
    · rw [backfillAux, if_neg h1]
      exact ih t (fun x hx => hall x (List.mem_cons_of_mem _ hx))
    · by_cases h0 : (getField r0 dcol).length = 0
      · rw [backfillAux, if_pos h0, h1]
        exact ih t (fun x hx => hall x (List.mem_cons_of_mem _ hx))
      · rw [backfillAux, if_neg h0]
        exact ih t (fun x hx => hall x (List.mem_cons_of_mem _ hx))

theorem bfValue_cons (dcol : String) (sIdx : List (String × Star))
    (u0 : String) (r0 : Row) (rest : List (String × Row)) (i : Nat) :
    bfValue dcol sIdx ((u0, r0) :: rest) i =
      if r0.id = i then
        (if (getField r0 dcol).length = 0 then
          (dictFind sIdx u0).map (fun s => s.description)
        else none)
      else bfValue dcol sIdx rest i := by
  by_cases h : r0.id = i <;> simp [bfValue, List.find?_cons, h]

theorem bfValue_not_found (dcol : String) (sIdx : List (String × Star)) :
    ∀ (idx : List (String × Row)) (i : Nat),
      (∀ p ∈ idx, p.2.id ≠ i) → bfValue dcol sIdx idx i = none := by
  intro idx
  induction idx with
  | nil => intro i _; rfl
  | cons p rest ih =>
    intro i hall
    obtain ⟨u0, r0⟩ := p
    rw [bfValue_cons, if_neg (hall (u0, r0) (List.mem_cons_self _ _))]
    exact ih i (fun x hx => hall x (List.mem_cons_of_mem _ hx))

theorem backfillAux_table_eq (dcol : String) (sIdx : List (String × Star)) :
    ∀ (idx : List (String × Row)) (t : List Row),
      (idx.map (fun p => p.2.id)).Nodup →
      (backfillAux dcol sIdx t idx).1 = t.map (bfUpdate dcol sIdx idx) := by
  intro idx
  induction idx with
  | nil =>
    intro t _
    have h : ∀ x ∈ t, bfUpdate dcol sIdx [] x = x := fun x _ => rfl
    rw [backfillAux, List.map_congr_left h, List.map_id']
  | cons p rest ih =>
    intro t hnd
    obtain ⟨u0, r0⟩ := p
    rw [List.map_cons, List.nodup_cons] at hnd
    have hnotin : ∀ q ∈ rest, q.2.id ≠ r0.id := by
      intro q hq hc
      exact hnd.1 (hc ▸ List.mem_map.mpr ⟨q, hq, rfl⟩)
    by_cases h0 : (getField r0 dcol).length = 0
    · cases hf : dictFind sIdx u0 with
      | none =>
        rw [backfillAux, if_pos h0, hf, ih t hnd.2]
        apply List.map_congr_left
        intro x _
        rw [bfUpdate, bfUpdate, bfValue_cons]
        by_cases hx : r0.id = x.id
        · rw [if_pos hx, if_pos h0, hf]
          have hnone : bfValue dcol sIdx rest x.id = none :=
            bfValue_not_found dcol sIdx rest x.id
              (fun q hq hc => hnotin q hq (hc.trans hx.symm))
          rw [hnone]
          rfl
        · rw [if_neg hx]
      | some s0 =>
        rw [backfillAux, if_pos h0, hf,
          ih (applySet t r0.id dcol s0.description) hnd.2, applySet, List.map_map]
        apply List.map_congr_left
        intro x _
        show bfUpdate dcol sIdx rest
            (if x.id = r0.id then setFieldOpt x dcol s0.description else x)
          = bfUpdate dcol sIdx ((u0, r0) :: rest) x
        by_cases hx : x.id = r0.id
        · have hid : (setFieldOpt x dcol s0.description).id = x.id := rfl
          have hnone : bfValue dcol sIdx rest (setFieldOpt x dcol s0.description).id = none := by
            rw [hid, hx]
            exact bfValue_not_found dcol sIdx rest r0.id (fun q hq => hnotin q hq)
          rw [if_pos hx, bfUpdate, hnone, bfUpdate, bfValue_cons, if_pos hx.symm,
            if_pos h0, hf]
          rfl
        · rw [if_neg hx, bfUpdate, bfUpdate, bfValue_cons,
            if_neg (fun hc => hx hc.symm)]
    · rw [backfillAux, if_neg h0, ih t hnd.2]
      apply List.map_congr_left
      intro x _
      rw [bfUpdate, bfUpdate, bfValue_cons]
      by_cases hx : r0.id = x.id
      · rw [if_pos hx, if_neg h0]
        have : bfValue dcol sIdx rest x.id = none :=
          bfValue_not_found dcol sIdx rest x.id
            (fun q hq hc => hnotin q hq (hc.trans hx.symm))
        rw [this]
      · rw [if_neg hx]

/-! ## Step 5: deleting orphans -/

theorem deleteOrphansAux_ops_mem (ncol : String) (sIdx : List (String × Star)) :
    ∀ (idx : List (String × Row)) (t : List Row) (u : String) (r : Row),
      (u, r) ∈ idx → dictMem u sIdx = false →
      Op.deleteRow r.id ∈ (deleteOrphansAux ncol sIdx t idx).2.1 ∧
      ("Deleted row for " ++ getField r ncol) ∈ (deleteOrphansAux ncol sIdx t idx).2.2 := by
  intro idx
  induction idx with
  | nil => intro t u r hmem; simp at hmem
  | cons p rest ih =>
    intro t u r hmem horphan
    obtain ⟨u0, r0⟩ := p
    rcases List.mem_cons.mp hmem with h1 | h1
    · have hu : u0 = u := (Prod.mk.injEq _ _ _ _ |>.mp h1.symm).1
      have hr : r0 = r := (Prod.mk.injEq _ _ _ _ |>.mp h1.symm).2
      subst hu hr
      rw [deleteOrphansAux, if_neg (by rw [horphan]; simp)]
      exact ⟨List.mem_cons_self _ _, List.mem_cons_self _ _⟩
    · by_cases hm : dictMem u0 sIdx = true
      · rw [deleteOrphansAux, if_pos hm]
        exact ih t u r h1 horphan
      · rw [deleteOrphansAux, if_neg hm]
        have hrec := ih (t.filter (fun row => row.id ≠ r0.id)) u r h1 horphan
        exact ⟨List.mem_cons_of_mem _ hrec.1, List.mem_cons_of_mem _ hrec.2⟩

theorem deleteOrphansAux_ops_source (ncol : String) (sIdx : List (String × Star)) :
    ∀ (idx : List (String × Row)) (t : List Row) (op : Op),
      op ∈ (deleteOrphansAux ncol sIdx t idx).2.1 →
      ∃ u r, (u, r) ∈ idx ∧ dictMem u sIdx = false ∧ op = Op.deleteRow r.id := by
  intro idx
  induction idx with
  | nil => intro t op hop; simp [deleteOrphansAux] at hop
  | cons p rest ih =>
    intro t op hop
    obtain ⟨u0, r0⟩ := p
    by_cases hm : dictMem u0 sIdx = true
    · rw [deleteOrphansAux, if_pos hm] at hop
      rcases ih t op hop with ⟨u, r, hmem, ho, hoeq⟩
      exact ⟨u, r, List.mem_cons_of_mem _ hmem, ho, hoeq⟩
    · rw [deleteOrphansAux, if_neg hm] at hop
      rcases List.mem_cons.mp hop with h1 | h1
      · exact ⟨u0, r0, List.mem_cons_self _ _, Bool.not_eq_true _ |>.mp hm, h1⟩
      · rcases ih (t.filter (fun row => row.id ≠ r0.id)) op h1 with ⟨u, r, hmem, ho, hoeq⟩
        exact ⟨u, r, List.mem_cons_of_mem _ hmem, ho, hoeq⟩

theorem deleteOrphansAux_noop (ncol : String) (sIdx : List (String × Star)) :
    ∀ (idx : List (String × Row)) (t : List Row),
      (∀ p ∈ idx, dictMem p.1 sIdx = true) →
      deleteOrphansAux ncol sIdx t idx = (t, [], []) := by
  intro idx
  induction idx with
  | nil => intro t _; rfl
  | cons p rest ih =>
    intro t hall
    obtain ⟨u0, r0⟩ := p
    rw [deleteOrphansAux, if_pos (hall (u0, r0) (List.mem_cons_self _ _))]
    exact ih t (fun x hx => hall x (List.mem_cons_of_mem _ hx))

theorem orphanDead_cons (sIdx : List (String × Star)) (u0 : String) (r0 : Row)
    (rest : List (String × Row)) (i : Nat) :
    orphanDead sIdx ((u0, r0) :: rest) i
      = ((!(dictMem u0 sIdx) && (r0.id = i)) || orphanDead sIdx rest i) := by
  simp [orphanDead]

theorem deleteOrphansAux_table_eq (ncol : String) (sIdx : List (String × Star)) :
    ∀ (idx : List (String × Row)) (t : List Row),
      (deleteOrphansAux ncol sIdx t idx).1
        = t.filter (fun row => !(orphanDead sIdx idx row.id)) := by
  intro idx
  induction idx with
  | nil =>
    intro t
    rw [deleteOrphansAux]
    exact (List.filter_eq_self.mpr (fun x _ => rfl)).symm
  | cons p rest ih =>
    intro t
    obtain ⟨u0, r0⟩ := p
    by_cases hm : dictMem u0 sIdx = true
    · rw [deleteOrphansAux, if_pos hm, ih t]
      apply List.filter_congr
      intro x _
      rw [orphanDead_cons, hm]
      simp
    · rw [deleteOrphansAux, if_neg hm, ih, List.filter_filter]
      apply List.filter_congr
      intro x _
      rw [orphanDead_cons, Bool.not_eq_true _ |>.mp hm]
      by_cases hx : r0.id = x.id
      · simp [hx]
      · have hx2 : ¬ (x.id = r0.id) := fun hc => hx hc.symm
        simp [hx, hx2]

/-! ## The whole run, decomposed -/

theorem sync_star_table_false (stars : List Star) (table : List Row) (n u d : String) :
    sync_star_table stars table false n u d =
      ((backfillAux d (stars_by_url stars)
          (table ++ (addMissing n u d (rows_by_url u table).1 (freshId table) stars).1)
          (rows_by_url u table).1).1,
        (addMissing n u d (rows_by_url u table).1 (freshId table) stars).2.1 ++
          (backfillAux d (stars_by_url stars)
            (table ++ (addMissing n u d (rows_by_url u table).1 (freshId table) stars).1)
            (rows_by_url u table).1).2.1 ++ [],
        (rows_by_url u table).2 ++
          (addMissing n u d (rows_by_url u table).1 (freshId table) stars).2.2 ++
          (backfillAux d (stars_by_url stars)
            (table ++ (addMissing n u d (rows_by_url u table).1 (freshId table) stars).1)
            (rows_by_url u table).1).2.2 ++ []) := rfl

theorem sync_star_table_true (stars : List Star) (table : List Row) (n u d : String) :
    sync_star_table stars table true n u d =
      ((deleteOrphansAux n (stars_by_url stars)
          (backfillAux d (stars_by_url stars)
            (table ++ (addMissing n u d (rows_by_url u table).1 (freshId table) stars).1)
            (rows_by_url u table).1).1
          (rows_by_url u table).1).1,
        (addMissing n u d (rows_by_url u table).1 (freshId table) stars).2.1 ++
          (backfillAux d (stars_by_url stars)
            (table ++ (addMissing n u d (rows_by_url u table).1 (freshId table) stars).1)
            (rows_by_url u table).1).2.1 ++
          (deleteOrphansAux n (stars_by_url stars)
            (backfillAux d (stars_by_url stars)
              (table ++ (addMissing n u d (rows_by_url u table).1 (freshId table) stars).1)
              (rows_by_url u table).1).1
            (rows_by_url u table).1).2.1,
        (rows_by_url u table).2 ++
          (addMissing n u d (rows_by_url u table).1 (freshId table) stars).2.2 ++
          (backfillAux d (stars_by_url stars)
            (table ++ (addMissing n u d (rows_by_url u table).1 (freshId table) stars).1)
            (rows_by_url u table).1).2.2 ++
          (deleteOrphansAux n (stars_by_url stars)
            (backfillAux d (stars_by_url stars)
              (table ++ (addMissing n u d (rows_by_url u table).1 (freshId table) stars).1)
              (rows_by_url u table).1).1
            (rows_by_url u table).1).2.2) := rfl

theorem idx_find_id :
    ∀ (idx : List (String × Row)), ((idx.map (fun p => p.2.id))).Nodup →
      ∀ {u : String} {r : Row}, (u, r) ∈ idx →
        idx.find? (fun p => p.2.id = r.id) = some (u, r) := by
  intro idx
  induction idx with
  | nil => intro _ u r hmem; simp at hmem
  | cons p rest ih =>
    intro hnd u r hmem
    rw [List.map_cons, List.nodup_cons] at hnd
    rcases List.mem_cons.mp hmem with h1 | h1
    · rw [← h1]
      apply List.find?_cons_of_pos
      simp
    · have hne : ¬ (p.2.id = r.id) := by
        intro hc
        exact hnd.1 (hc ▸ List.mem_map.mpr ⟨(u, r), h1, rfl⟩)
      rw [List.find?_cons_of_neg _ (by simpa using hne)]
      exact ih hnd.2 h1

theorem entry_eq_of_id {idx : List (String × Row)}
    (hnd : ((idx.map (fun p => p.2.id))).Nodup)
    {u1 u2 : String} {r1 r2 : Row} (h1 : (u1, r1) ∈ idx) (h2 : (u2, r2) ∈ idx)
    (hid : r1.id = r2.id) : u1 = u2 ∧ r1 = r2 := by
  have := List.inj_on_of_nodup_map hnd h1 h2 hid
  exact ⟨(Prod.mk.injEq _ _ _ _ |>.mp this).1, (Prod.mk.injEq _ _ _ _ |>.mp this).2⟩

theorem addMissing_no_delete :
    ∀ (stars : List Star) (n u d : String) (idx : List (String × Row)) (nid i : Nat),
      Op.deleteRow i ∉ (addMissing n u d idx nid stars).2.1 := by
  intro stars
  induction stars with
  | nil => intro n u d idx nid i h; simp [addMissing] at h
  | cons s rest ih =>
    intro n u d idx nid i h
    by_cases hmem : dictMem s.url idx = true
    · rw [addMissing, if_pos hmem] at h
      exact ih n u d idx nid i h
    · rw [addMissing, if_neg hmem] at h
      rcases List.mem_cons.mp h with h1 | h1
      · exact Op.noConfusion h1
      rcases List.mem_cons.mp h1 with h2 | h2
      · exact Op.noConfusion h2
      rcases List.mem_cons.mp h2 with h3 | h3
      · exact Op.noConfusion h3
      rcases List.mem_cons.mp h3 with h4 | h4
      · exact Op.noConfusion h4
      · exact ih n u d idx (nid + 1) i h4

theorem mem_append3 {α : Type} {x : α} {a b c : List α} :
    x ∈ a ++ b ++ c ↔ x ∈ a ∨ x ∈ b ∨ x ∈ c := by
  simp [List.mem_append, or_assoc]

theorem mem_append4 {α : Type} {x : α} {a b c d : List α} :
    x ∈ a ++ b ++ c ++ d ↔ x ∈ a ∨ x ∈ b ∨ x ∈ c ∨ x ∈ d := by
  simp [List.mem_append, or_assoc]

/-- Shared helper: with `delete=False` and default column names, an
indexed row that the backfill step has no reason to write (non-empty
description, or no matching star) receives no operation and survives the
run unchanged. -/
theorem sync_false_row_untouched (stars : List Star) (table : List Row)
    (hids : (table.map Row.id).Nodup) {u : String} {r : Row}
    (hidx : (u, r) ∈ (rows_by_url "URL" table).1)
    (hno : ¬(((getField r "Description").length = 0) ∧
        (dictFind (stars_by_url stars) u).isSome = true)) :
    (∀ op ∈ (sync_star_table stars table false "Name" "URL" "Description").2.1,
      Op.target op ≠ r.id) ∧
    r ∈ (sync_star_table stars table false "Name" "URL" "Description").1 := by
  have hidnd := rows_by_url_ids_nodup hids
  have hrtab := (rows_by_url_entry_props hidx).1
  have hlt : r.id < freshId table := id_lt_freshId hrtab
  have hv : bfValue "Description" (stars_by_url stars) (rows_by_url "URL" table).1 r.id
      = none := by
    rw [bfValue, idx_find_id _ hidnd hidx]
    show (if (getField r "Description").length = 0 then
        (dictFind (stars_by_url stars) u).map (fun s => s.description) else none) = none
    by_cases hemp : (getField r "Description").length = 0
    · rw [if_pos hemp]
      cases hf : dictFind (stars_by_url stars) u with
      | none => rfl
      | some s => exact absurd ⟨hemp, by rw [hf]; rfl⟩ hno
    · rw [if_neg hemp]
  rw [sync_star_table_false]
  constructor
  · intro op hop
    rcases mem_append3.mp hop with h1 | h1 | h1
    · intro hc
      have := addMissing_ops_ge stars "Name" "URL" "Description" _ (freshId table) op h1
      rw [hc] at this
      exact absurd hlt (Nat.not_lt_of_le this)
    · rcases backfillAux_ops_source "Description" (stars_by_url stars) _ _ op h1 with
        ⟨u', r', hmem', hemp', s, hfind', hopeq⟩
      intro hc
      rw [hopeq] at hc
      have hc' : r'.id = r.id := hc
      rcases entry_eq_of_id hidnd hmem' hidx hc' with ⟨hu, hr⟩
      rw [hr] at hemp'
      rw [hu] at hfind'
      exact hno ⟨hemp', by rw [hfind']; rfl⟩
    · simp at h1
  · rw [backfillAux_table_eq _ _ _ _ hidnd]
    refine List.mem_map.mpr ⟨r, List.mem_append_left _ hrtab, ?_⟩
    rw [bfUpdate, hv]

/-- C7: orphan deletion is gated on the `delete` flag.  For an indexed
row whose URL matches no star: with `delete=False` no operation targets
it and it survives unchanged; with `delete=True` it is deleted (its
handle receives a `deleteRow`, no row with its handle remains, and every
deletion of the run targets an indexed orphan); and a call that passes
no optional arguments (`sync_star_table_defaults`) deletes nothing. -/
theorem sync_orphan_deletion_gating (stars : List Star) (table : List Row)
    (hids : (table.map Row.id).Nodup) {u : String} {r : Row}
    (hidx : (u, r) ∈ (rows_by_url "URL" table).1)
    (horphan : dictMem u (stars_by_url stars) = false) :
    ((∀ op ∈ (sync_star_table stars table false "Name" "URL" "Description").2.1,
        Op.target op ≠ r.id) ∧
      r ∈ (sync_star_table stars table false "Name" "URL" "Description").1) ∧
    (Op.deleteRow r.id ∈ (sync_star_table stars table true "Name" "URL" "Description").2.1 ∧
      (∀ x ∈ (sync_star_table stars table true "Name" "URL" "Description").1, x.id ≠ r.id) ∧
      (∀ i, Op.deleteRow i ∈ (sync_star_table stars table true "Name" "URL" "Description").2.1 →
        ∃ u' r', (u', r') ∈ (rows_by_url "URL" table).1 ∧
          dictMem u' (stars_by_url stars) = false ∧ i = r'.id)) ∧
    (∀ i, Op.deleteRow i ∉ (sync_star_table_defaults stars table).2.1) := by
  have hfnone : dictFind (stars_by_url stars) u = none := by
    rw [← Option.not_isSome_iff_eq_none, ← dictMem_eq_isSome, horphan]
    simp
  refine ⟨?_, ⟨?_, ?_, ?_⟩, ?_⟩
  · exact sync_false_row_untouched stars table hids hidx
      (fun h => by rw [hfnone] at h; exact absurd h.2 (by simp))
  · rw [sync_star_table_true]
    refine List.mem_append_right _ ?_
    exact (deleteOrphansAux_ops_mem "Name" (stars_by_url stars) _ _ u r hidx horphan).1
  · rw [sync_star_table_true]
    intro x hx hc
    rw [deleteOrphansAux_table_eq] at hx
    have hdead : orphanDead (stars_by_url stars) (rows_by_url "URL" table).1 x.id = true := by
      rw [orphanDead]
      refine List.any_eq_true.mpr ⟨(u, r), hidx, ?_⟩
      rw [horphan, hc]
      simp
    have hmf := List.of_mem_filter hx
    rw [hdead] at hmf
    exact Bool.noConfusion hmf
  · rw [sync_star_table_true]
    intro i hop
    rcases mem_append3.mp hop with h1 | h1 | h1
    · exact absurd h1 (addMissing_no_delete stars "Name" "URL" "Description" _ _ i)
    · rcases backfillAux_ops_source "Description" (stars_by_url stars) _ _ _ h1 with
        ⟨u', r', _, _, s, _, hopeq⟩
      exact Op.noConfusion hopeq
    · rcases deleteOrphansAux_ops_source "Name" (stars_by_url stars) _ _ _ h1 with
        ⟨u', r', hmem', ho', hopeq⟩
      refine ⟨u', r', hmem', ho', ?_⟩
      injection hopeq
  · intro i hop
    rw [sync_star_table_defaults, sync_star_table_false] at hop
    rcases mem_append3.mp hop with h1 | h1 | h1
    · exact absurd h1 (addMissing_no_delete stars "Name" "URL" "Description" _ _ i)
    · rcases backfillAux_ops_source "Description" (stars_by_url stars) _ _ _ h1 with
        ⟨u', r', _, _, s, _, hopeq⟩
      exact Op.noConfusion hopeq
    · simp at h1

theorem sync_orphan_deletion_gating_witness :
    Op.deleteRow 5 ∈ (sync_star_table [Star.mk "A" "u1" (some "d")]
        [Row.mk 5 [("Name", "N"), ("URL", "u9"), ("Description", "d")]]
        true "Name" "URL" "Description").2.1 ∧
    (∀ i, Op.deleteRow i ∉ (sync_star_table_defaults [Star.mk "A" "u1" (some "d")]
        [Row.mk 5 [("Name", "N"), ("URL", "u9"), ("Description", "d")]]).2.1) := by
  have h := sync_orphan_deletion_gating [Star.mk "A" "u1" (some "d")]
    [Row.mk 5 [("Name", "N"), ("URL", "u9"), ("Description", "d")]]
    (by decide)
    (u := "u9") (r := Row.mk 5 [("Name", "N"), ("URL", "u9"), ("Description", "d")])
    (by decide) (by decide)
  exact ⟨h.2.1.1, h.2.2⟩

/-- C5: the backfill policy on every indexed existing row, under
`delete=False` and default column names.  A row with a non-empty
description never receives a description write; a row with an empty
description whose URL has a matching star receives exactly the star's
description; a row with an empty description and no matching star
receives no operation at all and survives the run unchanged (and, the
run being a total function, no error is raised). -/
theorem sync_backfill_policy (stars : List Star) (table : List Row)
    (hids : (table.map Row.id).Nodup) {u : String} {r : Row}
    (hidx : (u, r) ∈ (rows_by_url "URL" table).1) :
    ((getField r "Description" ≠ "") →
      ∀ v, Op.setF r.id "Description" v ∉
        (sync_star_table stars table false "Name" "URL" "Description").2.1) ∧
    ((getField r "Description" = "") →
      ∀ s, dictFind (stars_by_url stars) u = some s →
        Op.setF r.id "Description" s.description ∈
          (sync_star_table stars table false "Name" "URL" "Description").2.1) ∧
    ((getField r "Description" = "") → dictMem u (stars_by_url stars) = false →
      (∀ op ∈ (sync_star_table stars table false "Name" "URL" "Description").2.1,
        Op.target op ≠ r.id) ∧
      r ∈ (sync_star_table stars table false "Name" "URL" "Description").1) := by
  have hidnd := rows_by_url_ids_nodup hids
  have hrtab := (rows_by_url_entry_props hidx).1
  have hlt : r.id < freshId table := id_lt_freshId hrtab
  refine ⟨?_, ?_, ?_⟩
  · intro hne v hop
    rw [sync_star_table_false] at hop
    rcases mem_append3.mp hop with h1 | h1 | h1
    · have := addMissing_ops_ge stars "Name" "URL" "Description" _ (freshId table) _ h1
      exact absurd hlt (Nat.not_lt_of_le this)
    · rcases backfillAux_ops_source "Description" (stars_by_url stars) _ _ _ h1 with
        ⟨u', r', hmem', hemp', s, hfind', hopeq⟩
      have hid : r.id = r'.id := by injection hopeq
      rcases entry_eq_of_id hidnd hmem' hidx hid.symm with ⟨_, hr⟩
      rw [hr, string_length_eq_zero] at hemp'
      exact hne hemp'
    · simp at h1
  · intro hemp s hfind
    rw [sync_star_table_false]
    refine List.mem_append_left _ (List.mem_append_right _ ?_)
    exact (backfillAux_ops_mem "Description" (stars_by_url stars) _ _ u r s hidx
      (string_length_eq_zero.mpr hemp) hfind).1
  · intro hemp horphan
    apply sync_false_row_untouched stars table hids hidx
    intro hc
    rw [← dictMem_eq_isSome, horphan] at hc
    exact Bool.noConfusion hc.2

theorem sync_backfill_policy_witness :
    (([Row.mk 0 [("Name", "A"), ("URL", "u1"), ("Description", "old")],
       Row.mk 1 [("Name", "B"), ("URL", "u2"), ("Description", "")]].map Row.id).Nodup) ∧
    (getField (Row.mk 0 [("Name", "A"), ("URL", "u1"), ("Description", "old")])
        "Description" ≠ "") ∧
    (∀ v, Op.setF 0 "Description" v ∉
      (sync_star_table [Star.mk "A" "u1" (some "d1"), Star.mk "B" "u2" (some "d2")]
        [Row.mk 0 [("Name", "A"), ("URL", "u1"), ("Description", "old")],
         Row.mk 1 [("Name", "B"), ("URL", "u2"), ("Description", "")]]
        false "Name" "URL" "Description").2.1) ∧
    Op.setF 1 "Description" (some "d2") ∈
      (sync_star_table [Star.mk "A" "u1" (some "d1"), Star.mk "B" "u2" (some "d2")]
        [Row.mk 0 [("Name", "A"), ("URL", "u1"), ("Description", "old")],
         Row.mk 1 [("Name", "B"), ("URL", "u2"), ("Description", "")]]
        false "Name" "URL" "Description").2.1 := by
  have h1 := sync_backfill_policy
    [Star.mk "A" "u1" (some "d1"), Star.mk "B" "u2" (some "d2")]
    [Row.mk 0 [("Name", "A"), ("URL", "u1"), ("Description", "old")],
     Row.mk 1 [("Name", "B"), ("URL", "u2"), ("Description", "")]]
    (by decide)
    (u := "u1") (r := Row.mk 0 [("Name", "A"), ("URL", "u1"), ("Description", "old")])
    (by decide)
  have h2 := sync_backfill_policy
    [Star.mk "A" "u1" (some "d1"), Star.mk "B" "u2" (some "d2")]
    [Row.mk 0 [("Name", "A"), ("URL", "u1"), ("Description", "old")],
     Row.mk 1 [("Name", "B"), ("URL", "u2"), ("Description", "")]]
    (by decide)
    (u := "u2") (r := Row.mk 1 [("Name", "B"), ("URL", "u2"), ("Description", "")])
    (by decide)
  exact ⟨by decide, by decide, h1.1 (by decide),
    h2.2.1 (by decide) (Star.mk "B" "u2" (some "d2")) (by decide)⟩

/-- C10 (implicit behavior): whenever an indexed row's description field
is empty and its URL has a star, the backfill write and its report
happen unconditionally, and the value written is the star's raw
description — even `None` or the empty string, with no conversion. -/
theorem sync_backfill_writes_raw_description (stars : List Star) (table : List Row)
    (delete : Bool) {u : String} {r : Row} {s : Star}
    (hidx : (u, r) ∈ (rows_by_url "URL" table).1)
    (hemp : getField r "Description" = "")
    (hfind : dictFind (stars_by_url stars) u = some s) :
    Op.setF r.id "Description" s.description ∈
      (sync_star_table stars table delete "Name" "URL" "Description").2.1 ∧
    ("Filled missing description for " ++ s.name) ∈
      (sync_star_table stars table delete "Name" "URL" "Description").2.2 := by
  have hop := backfillAux_ops_mem "Description" (stars_by_url stars)
    (rows_by_url "URL" table).1
    (table ++ (addMissing "Name" "URL" "Description"
      (rows_by_url "URL" table).1 (freshId table) stars).1)
    u r s hidx (string_length_eq_zero.mpr hemp) hfind
  cases delete
  · rw [sync_star_table_false]
    exact ⟨mem_append3.mpr (Or.inr (Or.inl hop.1)),
      mem_append4.mpr (Or.inr (Or.inr (Or.inl hop.2)))⟩
  · rw [sync_star_table_true]
    exact ⟨mem_append3.mpr (Or.inr (Or.inl hop.1)),
      mem_append4.mpr (Or.inr (Or.inr (Or.inl hop.2)))⟩

theorem sync_backfill_writes_raw_description_witness :
    Op.setF 0 "Description" none ∈
      (sync_star_table [Star.mk "A" "u1" none]
        [Row.mk 0 [("Name", "A"), ("URL", "u1"), ("Description", "")]]
        false "Name" "URL" "Description").2.1 ∧
    ("Filled missing description for " ++ "A") ∈
      (sync_star_table [Star.mk "A" "u1" none]
        [Row.mk 0 [("Name", "A"), ("URL", "u1"), ("Description", "")]]
        false "Name" "URL" "Description").2.2 :=
  sync_backfill_writes_raw_description [Star.mk "A" "u1" none]
    [Row.mk 0 [("Name", "A"), ("URL", "u1"), ("Description", "")]] false
    (u := "u1") (r := Row.mk 0 [("Name", "A"), ("URL", "u1"), ("Description", "")])
    (s := Star.mk "A" "u1" none)
    (by decide) (by decide) (by decide)

/-- C9: the row index built in step 2 is not refreshed after step 3.
Every operation of the backfill step and of the delete step targets a
row of the step-2 index — a pre-existing table row — so rows created in
step 3 (whose handles are fresh) are never revisited; in particular no
row added in a run is deleted in that run. -/
theorem sync_snapshot_not_refreshed (stars : List Star) (table : List Row)
    (delete : Bool) :
    (∀ op ∈ (backfillAux "Description" (stars_by_url stars)
        (table ++ (addMissing "Name" "URL" "Description"
          (rows_by_url "URL" table).1 (freshId table) stars).1)
        (rows_by_url "URL" table).1).2.1,
      ∃ u r, (u, r) ∈ (rows_by_url "URL" table).1 ∧ Op.target op = r.id ∧ r ∈ table) ∧
    (∀ op ∈ (deleteOrphansAux "Name" (stars_by_url stars)
        (backfillAux "Description" (stars_by_url stars)
          (table ++ (addMissing "Name" "URL" "Description"
            (rows_by_url "URL" table).1 (freshId table) stars).1)
          (rows_by_url "URL" table).1).1
        (rows_by_url "URL" table).1).2.1,
      ∃ u r, (u, r) ∈ (rows_by_url "URL" table).1 ∧ Op.target op = r.id ∧ r ∈ table) ∧
    (∀ i, Op.addRow i ∈ (sync_star_table stars table delete "Name" "URL" "Description").2.1 →
      Op.deleteRow i ∉ (sync_star_table stars table delete "Name" "URL" "Description").2.1) := by
  refine ⟨?_, ?_, ?_⟩
  · intro op hop
    rcases backfillAux_ops_source "Description" (stars_by_url stars) _ _ _ hop with
      ⟨u, r, hmem, _, s, _, hopeq⟩
    exact ⟨u, r, hmem, by rw [hopeq]; rfl, (rows_by_url_entry_props hmem).1⟩
  · intro op hop
    rcases deleteOrphansAux_ops_source "Name" (stars_by_url stars) _ _ _ hop with
      ⟨u, r, hmem, _, hopeq⟩
    exact ⟨u, r, hmem, by rw [hopeq]; rfl, (rows_by_url_entry_props hmem).1⟩
  · intro i hadd hdel
    have hfresh : freshId table ≤ i := by
      cases delete
      · rw [sync_star_table_false] at hadd
        rcases mem_append3.mp hadd with h1 | h1 | h1
        · exact addMissing_ops_ge stars "Name" "URL" "Description" _ (freshId table) _ h1
        · rcases backfillAux_ops_source "Description" (stars_by_url stars) _ _ _ h1 with
            ⟨_, _, _, _, _, _, hopeq⟩
          exact Op.noConfusion hopeq
        · simp at h1
      · rw [sync_star_table_true] at hadd
        rcases mem_append3.mp hadd with h1 | h1 | h1
        · exact addMissing_ops_ge stars "Name" "URL" "Description" _ (freshId table) _ h1
        · rcases backfillAux_ops_source "Description" (stars_by_url stars) _ _ _ h1 with
            ⟨_, _, _, _, _, _, hopeq⟩
          exact Op.noConfusion hopeq
        · rcases deleteOrphansAux_ops_source "Name" (stars_by_url stars) _ _ _ h1 with
            ⟨_, _, _, _, hopeq⟩
          exact Op.noConfusion hopeq
    have hlt : i < freshId table := by
      cases delete
      · rw [sync_star_table_false] at hdel
        rcases mem_append3.mp hdel with h1 | h1 | h1
        · exact absurd h1 (addMissing_no_delete stars "Name" "URL" "Description" _ _ i)
        · rcases backfillAux_ops_source "Description" (stars_by_url stars) _ _ _ h1 with
            ⟨_, _, _, _, _, _, hopeq⟩
          exact Op.noConfusion hopeq
        · simp at h1
      · rw [sync_star_table_true] at hdel
        rcases mem_append3.mp hdel with h1 | h1 | h1
        · exact absurd h1 (addMissing_no_delete stars "Name" "URL" "Description" _ _ i)
        · rcases backfillAux_ops_source "Description" (stars_by_url stars) _ _ _ h1 with
            ⟨_, _, _, _, _, _, hopeq⟩
          exact Op.noConfusion hopeq
        · rcases deleteOrphansAux_ops_source "Name" (stars_by_url stars) _ _ _ h1 with
            ⟨u, r, hmem, _, hopeq⟩
          have : i = r.id := by injection hopeq
          rw [this]
          exact id_lt_freshId (rows_by_url_entry_props hmem).1
    exact absurd hlt (Nat.not_lt_of_le hfresh)

theorem sync_snapshot_not_refreshed_witness :
    Op.addRow 0 ∈ (sync_star_table [Star.mk "A" "u1" (some "d")] [] true
        "Name" "URL" "Description").2.1 ∧
    Op.deleteRow 0 ∉ (sync_star_table [Star.mk "A" "u1" (some "d")] [] true
        "Name" "URL" "Description").2.1 :=
  ⟨by decide,
    (sync_snapshot_not_refreshed [Star.mk "A" "u1" (some "d")] [] true).2.2 0 (by decide)⟩

/-! ## C6: empty-URL and duplicate rows -/

theorem rowsIndexAux_warn_empty :
    ∀ (rows : List Row) (acc : List (String × Row)) (r : Row),
      r ∈ rows → (getField r "URL").length = 0 →
      "Warning: skipping row with empty URL" ∈ (rowsIndexAux "URL" acc rows).2 := by
  intro rows
  induction rows with
  | nil => intro acc r hr; simp at hr
  | cons x rest ih =>
    intro acc r hr hemp
    rcases List.mem_cons.mp hr with h1 | h1
    · rw [rowsIndexAux, if_pos (h1 ▸ hemp)]
      exact List.mem_cons_self _ _
    · by_cases hx : (getField x "URL").length = 0
      · rw [rowsIndexAux, if_pos hx]
        exact List.mem_cons_of_mem _ (ih acc r h1 hemp)
      · by_cases hdup : dictMem (getField x "URL") acc = true
        · rw [rowsIndexAux, if_neg hx, if_pos hdup]
          exact List.mem_cons_of_mem _ (ih acc r h1 hemp)
        · rw [rowsIndexAux, if_neg hx, if_neg hdup]
          exact ih _ r h1 hemp

theorem rowsIndexAux_append :
    ∀ (l1 l2 : List Row) (acc : List (String × Row)),
      rowsIndexAux "URL" acc (l1 ++ l2)
        = ((rowsIndexAux "URL" (rowsIndexAux "URL" acc l1).1 l2).1,
           (rowsIndexAux "URL" acc l1).2
             ++ (rowsIndexAux "URL" (rowsIndexAux "URL" acc l1).1 l2).2) := by
  intro l1
  induction l1 with
  | nil =>
    intro l2 acc
    show rowsIndexAux "URL" acc l2 = _
    rw [rowsIndexAux]
    simp
  | cons x rest ih =>
    intro l2 acc
    by_cases hx : (getField x "URL").length = 0
    · rw [List.cons_append, rowsIndexAux, if_pos hx, rowsIndexAux, if_pos hx, ih]
      simp
    · by_cases hdup : dictMem (getField x "URL") acc = true
      · rw [List.cons_append, rowsIndexAux, if_neg hx, if_pos hdup,
          rowsIndexAux, if_neg hx, if_pos hdup, ih]
        simp
      · rw [List.cons_append, rowsIndexAux, if_neg hx, if_neg hdup,
          rowsIndexAux, if_neg hx, if_neg hdup, ih]

theorem rows_by_url_warn_dup {table pre suf : List Row} {r r0 : Row}
    (hsplit : table = pre ++ r :: suf) (hne : getField r "URL" ≠ "")
    (h0 : r0 ∈ pre) (hsame : getField r0 "URL" = getField r "URL") :
    ("Warning: found duplicate row for " ++ getField r "URL")
      ∈ (rows_by_url "URL" table).2 := by
  subst hsplit
  rw [rows_by_url, rowsIndexAux_append]
  apply List.mem_append_right
  have hmem : dictMem (getField r "URL") (rowsIndexAux "URL" [] pre).1 = true := by
    rw [dictMem_eq_isSome]
    have hspec := rowsIndexAux_find_spec pre [] (by intro p hp; simp at hp)
      (getField r "URL")
    rw [hspec]
    have hnone : dictFind ([] : List (String × Row)) (getField r "URL") = none := rfl
    rw [hnone, if_neg hne]
    cases hf : pre.find? (fun x => getField x "url" = getField r "URL") with
    | none =>
      rw [List.find?_eq_none] at hf
      exact absurd (by rw [← getField_URL_eq_url, hsame] : getField r0 "url"
        = getField r "URL") (by simpa using hf r0 h0)
    | some x => simp
  have hlen : ¬ ((getField r "URL").length = 0) := by
    rw [string_length_eq_zero]
    exact hne
  rw [rowsIndexAux, if_neg hlen, if_pos hmem]
  exact List.mem_cons_self _ _

/-- A row skipped by step 2 — empty URL, or a later duplicate of an
earlier row's non-empty URL — shares its handle with no indexed row. -/
theorem skipped_not_indexed {table : List Row} (hids : (table.map Row.id).Nodup)
    {r : Row} (hr : r ∈ table)
    (hskip : getField r "URL" = "" ∨
      (getField r "URL" ≠ "" ∧ ∃ pre suf, table = pre ++ r :: suf ∧
        ∃ r0 ∈ pre, getField r0 "URL" = getField r "URL")) :
    ∀ p ∈ (rows_by_url "URL" table).1, p.2.id ≠ r.id := by
  rintro ⟨u', r'⟩ hp hc
  have hprops := rows_by_url_entry_props hp
  have hr'r : r' = r := List.inj_on_of_nodup_map hids hprops.1 hr hc
  subst hr'r
  rcases hskip with h1 | ⟨hne, pre, suf, hsplit, r0, h0, hsame⟩
  · rw [getField_URL_eq_url] at h1
    exact hprops.2.2 (hprops.2.1 ▸ h1 ▸ rfl)
  · have hfind := ((rows_by_url_pair_mem table u' r').mp hp).2
    subst hsplit
    rw [List.find?_append] at hfind
    cases hf : pre.find? (fun x => getField x "url" = u') with
    | none =>
      rw [List.find?_eq_none] at hf
      have hpred : getField r0 "url" = u' := by
        rw [← getField_URL_eq_url] at hprops
        rw [← getField_URL_eq_url, hsame, ← hprops.2.1]
      exact absurd hpred (by simpa using hf r0 h0)
    | some x =>
      rw [hf] at hfind
      have hxr : x = r' := by simpa using hfind
      have hnd : (pre ++ r' :: suf).Nodup := List.Nodup.of_map _ hids
      rw [List.nodup_append] at hnd
      exact hnd.2.2 (hxr ▸ List.mem_of_find?_eq_some hf) (List.mem_cons_self _ _)

/-- C6: rows with an empty URL field, and later duplicates of an already
indexed non-empty URL, are only warned about: whatever the `delete`
flag, no operation of the run targets such a row, it is still present
after the run, the corresponding warning is printed, and every operation
on a pre-existing handle targets an indexed row (of which there is at
most one per URL value — the first seen). -/
theorem sync_malformed_rows_safe (stars : List Star) (table : List Row)
    (delete : Bool) (hids : (table.map Row.id).Nodup) {r : Row} (hr : r ∈ table)
    (hskip : getField r "URL" = "" ∨
      (getField r "URL" ≠ "" ∧ ∃ pre suf, table = pre ++ r :: suf ∧
        ∃ r0 ∈ pre, getField r0 "URL" = getField r "URL")) :
    (∀ op ∈ (sync_star_table stars table delete "Name" "URL" "Description").2.1,
      Op.target op ≠ r.id) ∧
    r ∈ (sync_star_table stars table delete "Name" "URL" "Description").1 ∧
    ((getField r "URL" = "" →
      "Warning: skipping row with empty URL" ∈
        (sync_star_table stars table delete "Name" "URL" "Description").2.2) ∧
     (getField r "URL" ≠ "" →
      ("Warning: found duplicate row for " ++ getField r "URL") ∈
        (sync_star_table stars table delete "Name" "URL" "Description").2.2)) ∧
    ((∀ op ∈ (sync_star_table stars table delete "Name" "URL" "Description").2.1,
      Op.target op < freshId table →
        ∃ u' r', (u', r') ∈ (rows_by_url "URL" table).1 ∧ Op.target op = r'.id) ∧
     ((rows_by_url "URL" table).1.map Prod.fst).Nodup) := by
  have hnotidx := skipped_not_indexed hids hr hskip
  have hidnd := rows_by_url_ids_nodup hids
  have hlt : r.id < freshId table := id_lt_freshId hr
  refine ⟨?_, ?_, ⟨?_, ?_⟩, ?_, rows_by_url_keys_nodup table⟩
  · intro op hop hc
    cases delete
    · rw [sync_star_table_false] at hop
      rcases mem_append3.mp hop with h1 | h1 | h1
      · have := addMissing_ops_ge stars "Name" "URL" "Description" _ (freshId table) _ h1
        rw [hc] at this
        exact absurd hlt (Nat.not_lt_of_le this)
      · rcases backfillAux_ops_source "Description" (stars_by_url stars) _ _ _ h1 with
          ⟨u', r', hmem', _, _, _, hopeq⟩
        rw [hopeq] at hc
        exact hnotidx (u', r') hmem' hc
      · simp at h1
    · rw [sync_star_table_true] at hop
      rcases mem_append3.mp hop with h1 | h1 | h1
      · have := addMissing_ops_ge stars "Name" "URL" "Description" _ (freshId table) _ h1
        rw [hc] at this
        exact absurd hlt (Nat.not_lt_of_le this)
      · rcases backfillAux_ops_source "Description" (stars_by_url stars) _ _ _ h1 with
          ⟨u', r', hmem', _, _, _, hopeq⟩
        rw [hopeq] at hc
        exact hnotidx (u', r') hmem' hc
      · rcases deleteOrphansAux_ops_source "Name" (stars_by_url stars) _ _ _ h1 with
          ⟨u', r', hmem', _, hopeq⟩
        rw [hopeq] at hc
        exact hnotidx (u', r') hmem' hc
  · have hupd : bfUpdate "Description" (stars_by_url stars) (rows_by_url "URL" table).1 r
        = r := by
      rw [bfUpdate, bfValue_not_found _ _ _ _ (fun q hq hc => hnotidx q hq hc)]
    have hmem4 : r ∈ (backfillAux "Description" (stars_by_url stars)
        (table ++ (addMissing "Name" "URL" "Description"
          (rows_by_url "URL" table).1 (freshId table) stars).1)
        (rows_by_url "URL" table).1).1 := by
      rw [backfillAux_table_eq _ _ _ _ hidnd]
      exact List.mem_map.mpr ⟨r, List.mem_append_left _ hr, hupd⟩
    cases delete
    · rw [sync_star_table_false]
      exact hmem4
    · rw [sync_star_table_true, deleteOrphansAux_table_eq]
      refine List.mem_filter.mpr ⟨hmem4, ?_⟩
      have hdead : orphanDead (stars_by_url stars) (rows_by_url "URL" table).1 r.id
          = false := by
        rw [orphanDead]
        rw [← Bool.not_eq_true]
        intro hc
        rcases List.any_eq_true.mp hc with ⟨p, hp, hpred⟩
        have hid := (Bool.and_eq_true _ _ |>.mp hpred).2
        exact hnotidx p hp (by simpa using hid)
      rw [hdead]
      rfl
  · intro hemp
    have hw := rowsIndexAux_warn_empty table [] r hr (string_length_eq_zero.mpr hemp)
    cases delete
    · rw [sync_star_table_false]
      exact mem_append4.mpr (Or.inl hw)
    · rw [sync_star_table_true]
      exact mem_append4.mpr (Or.inl hw)
  · intro hne
    rcases hskip with h1 | ⟨_, pre, suf, hsplit, r0, h0, hsame⟩
    · exact absurd h1 hne
    have hw := rows_by_url_warn_dup hsplit hne h0 hsame
    rw [rows_by_url] at hw
    cases delete
    · rw [sync_star_table_false]
      exact mem_append4.mpr (Or.inl hw)
    · rw [sync_star_table_true]
      exact mem_append4.mpr (Or.inl hw)
  · intro op hop hfresh
    cases delete
    · rw [sync_star_table_false] at hop
      rcases mem_append3.mp hop with h1 | h1 | h1
      · have := addMissing_ops_ge stars "Name" "URL" "Description" _ (freshId table) _ h1
        exact absurd hfresh (Nat.not_lt_of_le this)
      · rcases backfillAux_ops_source "Description" (stars_by_url stars) _ _ _ h1 with
          ⟨u', r', hmem', _, _, _, hopeq⟩
        exact ⟨u', r', hmem', by rw [hopeq]; rfl⟩
      · simp at h1
    · rw [sync_star_table_true] at hop
      rcases mem_append3.mp hop with h1 | h1 | h1
      · have := addMissing_ops_ge stars "Name" "URL" "Description" _ (freshId table) _ h1
        exact absurd hfresh (Nat.not_lt_of_le this)
      · rcases backfillAux_ops_source "Description" (stars_by_url stars) _ _ _ h1 with
          ⟨u', r', hmem', _, _, _, hopeq⟩
        exact ⟨u', r', hmem', by rw [hopeq]; rfl⟩
      · rcases deleteOrphansAux_ops_source "Name" (stars_by_url stars) _ _ _ h1 with
          ⟨u', r', hmem', _, hopeq⟩
        exact ⟨u', r', hmem', by rw [hopeq]; rfl⟩

theorem sync_malformed_rows_safe_witness :
    (∀ op ∈ (sync_star_table [Star.mk "A" "u1" (some "d")]
        [Row.mk 0 [("Name", "A"), ("URL", "u1"), ("Description", "x")],
         Row.mk 1 [("Name", "B"), ("URL", "u1"), ("Description", "")],
         Row.mk 2 [("Name", "C"), ("URL", ""), ("Description", "")]]
        true "Name" "URL" "Description").2.1,
      Op.target op ≠ 1) ∧
    Row.mk 1 [("Name", "B"), ("URL", "u1"), ("Description", "")] ∈
      (sync_star_table [Star.mk "A" "u1" (some "d")]
        [Row.mk 0 [("Name", "A"), ("URL", "u1"), ("Description", "x")],
         Row.mk 1 [("Name", "B"), ("URL", "u1"), ("Description", "")],
         Row.mk 2 [("Name", "C"), ("URL", ""), ("Description", "")]]
        true "Name" "URL" "Description").1 ∧
    ("Warning: found duplicate row for " ++ "u1") ∈
      (sync_star_table [Star.mk "A" "u1" (some "d")]
        [Row.mk 0 [("Name", "A"), ("URL", "u1"), ("Description", "x")],
         Row.mk 1 [("Name", "B"), ("URL", "u1"), ("Description", "")],
         Row.mk 2 [("Name", "C"), ("URL", ""), ("Description", "")]]
        true "Name" "URL" "Description").2.2 := by
  have h := sync_malformed_rows_safe [Star.mk "A" "u1" (some "d")]
    [Row.mk 0 [("Name", "A"), ("URL", "u1"), ("Description", "x")],
     Row.mk 1 [("Name", "B"), ("URL", "u1"), ("Description", "")],
     Row.mk 2 [("Name", "C"), ("URL", ""), ("Description", "")]]
    true (by decide)
    (r := Row.mk 1 [("Name", "B"), ("URL", "u1"), ("Description", "")])
    (by decide)
    (Or.inr ⟨by decide,
      [Row.mk 0 [("Name", "A"), ("URL", "u1"), ("Description", "x")]],
      [Row.mk 2 [("Name", "C"), ("URL", ""), ("Description", "")]],
      by decide,
      Row.mk 0 [("Name", "A"), ("URL", "u1"), ("Description", "x")],
      by decide, by decide⟩)
  refine ⟨?_, h.2.1, ?_⟩
  · intro op hop
    exact h.1 op hop
  · have := h.2.2.1.2 (by decide)
    simpa using this

/-! ## C2: the second run -/

theorem slug_url_ne_Description : slug "url" ≠ slug "Description" := by
  rw [slug_url, slug_Description]; decide

theorem bfUpdate_keeps_url (sIdx : List (String × Star)) (idx : List (String × Row))
    (x : Row) :
    getField (bfUpdate "Description" sIdx idx x) "url" = getField x "url" := by
  rw [bfUpdate]
  cases h : bfValue "Description" sIdx idx x.id with
  | none => rfl
  | some v => exact getField_setFieldOpt_ne slug_url_ne_Description x v

/-- The table after a `delete=False` run: the original rows, each
backfilled where step 4 decided to write, followed by the created rows
(which step 4 never touches). -/
theorem sync_false_table_shape (stars : List Star) (table : List Row)
    (hids : (table.map Row.id).Nodup) :
    (sync_star_table stars table false "Name" "URL" "Description").1
      = table.map (bfUpdate "Description" (stars_by_url stars) (rows_by_url "URL" table).1)
        ++ (addMissing "Name" "URL" "Description" (rows_by_url "URL" table).1
            (freshId table) stars).1 := by
  rw [sync_star_table_false,
    backfillAux_table_eq _ _ _ _ (rows_by_url_ids_nodup hids), List.map_append]
  congr 1
  have hfix : ∀ rc ∈ (addMissing "Name" "URL" "Description" (rows_by_url "URL" table).1
      (freshId table) stars).1,
      bfUpdate "Description" (stars_by_url stars) (rows_by_url "URL" table).1 rc = rc := by
    intro rc hrc
    have hge := addMissing_created_ge stars "Name" "URL" "Description" _ (freshId table)
      rc hrc
    rw [bfUpdate, bfValue_not_found]
    intro q hq hc
    have hql : q.2.id < freshId table := id_lt_freshId (rows_by_url_entry_props hq).1
    rw [hc] at hql
    exact absurd hge (Nat.not_le_of_lt hql)
  rw [List.map_congr_left hfix, List.map_id']

/-- The decision step 4 takes at an indexed entry. -/
theorem bfValue_at_entry {table : List Row} (hids : (table.map Row.id).Nodup)
    (sIdx : List (String × Star)) {u : String} {r : Row}
    (hpair : (u, r) ∈ (rows_by_url "URL" table).1) :
    bfValue "Description" sIdx (rows_by_url "URL" table).1 r.id
      = if (getField r "Description").length = 0 then
          (dictFind sIdx u).map (fun s => s.description)
        else none := by
  rw [bfValue, idx_find_id _ (rows_by_url_ids_nodup hids) hpair]

theorem sync_second_run_general (stars : List Star) (table T1 : List Row)
    (hids : (table.map Row.id).Nodup)
    (hstars : ∀ s ∈ stars, s.url ≠ "" ∧ ∃ ds, s.description = some ds ∧ ds ≠ "")
    (hT1 : T1 = (sync_star_table stars table false "Name" "URL" "Description").1) :
    (sync_star_table stars T1 false "Name" "URL" "Description").2.1 = [] := by
  rw [sync_false_table_shape stars table hids] at hT1
  have hmemT1 : ∀ s ∈ stars, ∃ x ∈ T1, getField x "url" = s.url := by
    intro s hs
    by_cases hm : dictMem s.url (rows_by_url "URL" table).1 = true
    · rcases dictMem_iff_exists.mp hm with ⟨r0, hr0⟩
      have hprops := rows_by_url_entry_props hr0
      refine ⟨bfUpdate "Description" (stars_by_url stars) (rows_by_url "URL" table).1 r0,
        ?_, ?_⟩
      · rw [hT1]
        exact List.mem_append_left _ (List.mem_map.mpr ⟨r0, hprops.1, rfl⟩)
      · rw [bfUpdate_keeps_url]
        exact hprops.2.1
    · rcases addMissing_mem_created stars (rows_by_url "URL" table).1 (freshId table) s hs
        (Bool.not_eq_true _ |>.mp hm) with ⟨i, _, hmemc⟩
      refine ⟨newStarRow i s, ?_, newStarRow_url i s⟩
      rw [hT1]
      exact List.mem_append_right _ hmemc
  have hall3 : ∀ s ∈ stars, dictMem s.url (rows_by_url "URL" T1).1 = true := by
    intro s hs
    rcases hmemT1 s hs with ⟨x, hx, hxu⟩
    rw [dictMem_eq_isSome, rows_by_url_find, if_neg (hstars s hs).1]
    cases hf : T1.find? (fun y => getField y "url" = s.url) with
    | none =>
      rw [List.find?_eq_none] at hf
      exact absurd hxu (by simpa using hf x hx)
    | some y => rfl
  have hall4 : ∀ p ∈ (rows_by_url "URL" T1).1,
      ¬((getField p.2 "Description").length = 0) ∨
        dictFind (stars_by_url stars) p.1 = none := by
    rintro ⟨u, rr⟩ hp
    by_cases hemp : (getField rr "Description").length = 0
    · by_cases hfnd : dictFind (stars_by_url stars) u = none
      · exact Or.inr hfnd
      exfalso
      rcases (rows_by_url_pair_mem T1 u rr).mp hp with ⟨hune, hfind⟩
      rcases Option.ne_none_iff_exists'.mp hfnd with ⟨s, hs⟩
      obtain ⟨hsmem, hsurl⟩ := stars_by_url_find_source hs
      obtain ⟨hu0, ds, hds, hdsne⟩ := hstars s hsmem
      rw [hT1, List.find?_append] at hfind
      cases hfm : (table.map (bfUpdate "Description" (stars_by_url stars)
          (rows_by_url "URL" table).1)).find? (fun y => getField y "url" = u) with
      | some x =>
        rw [hfm] at hfind
        have hxrr : x = rr := by simpa using hfind
        rw [List.find?_map] at hfm
        rcases Option.map_eq_some'.mp hfm with ⟨r0, hr0find, hr0g⟩
        have hpredeq : ((fun y => decide (getField y "url" = u)) ∘
            bfUpdate "Description" (stars_by_url stars) (rows_by_url "URL" table).1)
            = (fun y : Row => decide (getField y "url" = u)) := by
          funext y
          simp only [Function.comp_apply, bfUpdate_keeps_url]
        rw [hpredeq] at hr0find
        have hpair0 : (u, r0) ∈ (rows_by_url "URL" table).1 :=
          (rows_by_url_pair_mem table u r0).mpr ⟨hune, hr0find⟩
        have hbv := bfValue_at_entry hids (stars_by_url stars) hpair0
        by_cases h0 : (getField r0 "Description").length = 0
        · rw [if_pos h0, hs] at hbv
          have hgr0 : bfUpdate "Description" (stars_by_url stars)
              (rows_by_url "URL" table).1 r0
                = setFieldOpt r0 "Description" s.description := by
            rw [bfUpdate, hbv]
            rfl
          have hdesc : getField rr "Description" = ds := by
            rw [← hxrr, ← hr0g, hgr0, getField_setFieldOpt_self rfl, hds]
            rfl
          rw [string_length_eq_zero] at hemp
          rw [hdesc] at hemp
          exact hdsne hemp
        · have hgr0 : bfUpdate "Description" (stars_by_url stars)
              (rows_by_url "URL" table).1 r0 = r0 := by
            rw [bfUpdate, hbv, if_neg h0]
          have : getField rr "Description" = getField r0 "Description" := by
            rw [← hxrr, ← hr0g, hgr0]
          rw [this] at hemp
          exact h0 hemp
      | none =>
        rw [hfm] at hfind
        have hfind2 : (addMissing "Name" "URL" "Description" (rows_by_url "URL" table).1
            (freshId table) stars).1.find? (fun y => getField y "url" = u)
              = some rr := by simpa using hfind
        have hrrmem := List.mem_of_find?_eq_some hfind2
        rcases addMissing_created_mem stars (rows_by_url "URL" table).1 (freshId table)
          rr hrrmem with ⟨s', hs', i, _, hrr, _⟩
        obtain ⟨_, ds', hds', hdsne'⟩ := hstars s' hs'
        have hd : getField rr "Description" = ds' := by
          rw [hrr, newStarRow_Description, hds']
          rfl
        rw [string_length_eq_zero] at hemp
        rw [hd] at hemp
        exact hdsne' hemp
    · exact Or.inl hemp
  rw [sync_star_table_false,
    addMissing_skip_all stars "Name" "URL" "Description" (rows_by_url "URL" T1).1
      (freshId T1) hall3,
    backfillAux_noop "Description" (stars_by_url stars) (rows_by_url "URL" T1).1 _ hall4]
  rfl

/-- C2 (amended): a second `delete=False` run on the table produced by a
first run with the identical star list performs no writes — no row is
created, no field is set, no row is deleted — provided every star has a
non-empty URL and a non-null, non-empty description.  (Without that
proviso the second run re-issues description writes; see the
counterexample.) -/
theorem sync_second_run_no_writes (stars : List Star) (table : List Row)
    (hids : (table.map Row.id).Nodup)
    (hstars : ∀ s ∈ stars, s.url ≠ "" ∧ ∃ ds, s.description = some ds ∧ ds ≠ "") :
    (sync_star_table stars
      (sync_star_table stars table false "Name" "URL" "Description").1
      false "Name" "URL" "Description").2.1 = [] :=
  sync_second_run_general stars table _ hids hstars rfl

/-- C2 counterexample: with a star whose description is `None`, the
second run issues a description write again (the created row's
description field reads as empty, the URL has a star, so step 4 fires),
so the claim "no additional writes on the second run" fails as stated. -/
theorem sync_second_run_writes_again :
    (sync_star_table [Star.mk "A" "u1" none]
      (sync_star_table [Star.mk "A" "u1" none] [] false "Name" "URL" "Description").1
      false "Name" "URL" "Description").2.1
      = [Op.setF 0 "Description" none] := by decide

theorem sync_second_run_no_writes_witness :
    (sync_star_table [Star.mk "A" "u1" (some "d1")]
      (sync_star_table [Star.mk "A" "u1" (some "d1")] [] false "Name" "URL" "Description").1
      false "Name" "URL" "Description").2.1 = [] :=
  sync_second_run_no_writes [Star.mk "A" "u1" (some "d1")] [] (by decide)
    (by
      intro s hs
      have hseq : s = Star.mk "A" "u1" (some "d1") := by simpa using hs
      subst hseq
      exact ⟨by decide, "d1", rfl, by decide⟩)

/-! ## C1: the reconciler invariant -/

theorem countP_and_of_imp {α : Type} (p q : α → Bool) :
    ∀ l : List α, (∀ x ∈ l, p x = true → q x = true) →
      (l.countP fun a => p a && q a) = l.countP p := by
  intro l
  induction l with
  | nil => intro _; rfl
  | cons a rest ih =>
    intro h
    rw [List.countP_cons, List.countP_cons,
      ih (fun x hx => h x (List.mem_cons_of_mem a hx))]
    by_cases hp : p a = true
    · have hq := h a (List.mem_cons_self a rest) hp
      simp [hp, hq]
    · have : ¬ (p a && q a) = true := by
        intro hc
        exact hp (Bool.and_eq_true _ _ |>.mp hc).1
      simp [hp, this]

theorem countP_eq_one_of_unique {α : Type} (p : α → Bool) :
    ∀ (l : List α) (x : α), l.Nodup → x ∈ l → p x = true →
      (∀ y ∈ l, p y = true → y = x) → l.countP p = 1 := by
  intro l
  induction l with
  | nil => intro x _ hx; simp at hx
  | cons a rest ih =>
    intro x hnd hx hpx huniq
    rw [List.nodup_cons] at hnd
    rcases List.mem_cons.mp hx with h1 | h1
    · subst h1
      rw [List.countP_cons_of_pos _ _ hpx]
      have : rest.countP p = 0 := by
        rw [List.countP_eq_zero]
        intro y hy hpy
        exact hnd.1 ((huniq y (List.mem_cons_of_mem x hy) hpy) ▸ hy)
      rw [this]
    · have hax : ¬ p a = true := by
        intro hpa
        have := huniq a (List.mem_cons_self a rest) hpa
        exact hnd.1 (this ▸ h1)
      rw [List.countP_cons_of_neg _ _ hax]
      exact ih x hnd.2 h1 hpx (fun y hy hpy => huniq y (List.mem_cons_of_mem a hy) hpy)

theorem find?_eq_of_unique {α : Type} (p : α → Bool) :
    ∀ (l : List α) (x : α), x ∈ l → p x = true →
      (∀ y ∈ l, p y = true → y = x) → l.find? p = some x := by
  intro l
  induction l with
  | nil => intro x hx; simp at hx
  | cons a rest ih =>
    intro x hx hpx huniq
    by_cases hpa : p a = true
    · rw [List.find?_cons_of_pos _ hpa, huniq a (List.mem_cons_self a rest) hpa]
    · rw [List.find?_cons_of_neg _ hpa]
      rcases List.mem_cons.mp hx with h1 | h1
      · rw [h1] at hpx
        exact absurd hpx hpa
      · exact ih x h1 hpx (fun y hy hpy => huniq y (List.mem_cons_of_mem a hy) hpy)

/-- With no two rows of the table sharing a non-empty URL, rows carrying
a fixed non-empty URL are unique. -/
theorem url_unique_of_pairwise {table : List Row}
    (hrows : table.Pairwise
      (fun a b => getField a "URL" = getField b "URL" → getField a "URL" = ""))
    {u : String} (hu : u ≠ "") :
    ∀ x ∈ table, ∀ y ∈ table,
      getField x "URL" = u → getField y "URL" = u → x = y := by
  induction table with
  | nil => intro x hx; simp at hx
  | cons a rest ih =>
    rw [List.pairwise_cons] at hrows
    intro x hx y hy hpx hpy
    rcases List.mem_cons.mp hx with h1 | h1 <;> rcases List.mem_cons.mp hy with h2 | h2
    · rw [h1, h2]
    · subst h1
      have hcon := hrows.1 y h2 (hpx.trans hpy.symm)
      rw [hpx] at hcon
      exact absurd hcon hu
    · subst h2
      have hcon := hrows.1 x h1 (hpy.trans hpx.symm)
      rw [hpy] at hcon
      exact absurd hcon hu
    · exact ih hrows.2 x h1 y h2 hpx hpy

theorem bfUpdate_keeps_Name (sIdx : List (String × Star)) (idx : List (String × Row))
    (x : Row) :
    getField (bfUpdate "Description" sIdx idx x) "Name" = getField x "Name" := by
  rw [bfUpdate]
  cases h : bfValue "Description" sIdx idx x.id with
  | none => rfl
  | some v => exact getField_setFieldOpt_ne slug_Name_ne_Description x v

theorem bfUpdate_keeps_URL (sIdx : List (String × Star)) (idx : List (String × Row))
    (x : Row) :
    getField (bfUpdate "Description" sIdx idx x) "URL" = getField x "URL" := by
  rw [getField_URL_eq_url, bfUpdate_keeps_url, getField_URL_eq_url]

theorem bfUpdate_id (sIdx : List (String × Star)) (idx : List (String × Row)) (x : Row) :
    (bfUpdate "Description" sIdx idx x).id = x.id := by
  rw [bfUpdate]
  cases h : bfValue "Description" sIdx idx x.id with
  | none => rfl
  | some v => rfl

theorem backfill_step_shape (stars : List Star) (table : List Row)
    (hids : (table.map Row.id).Nodup) :
    (backfillAux "Description" (stars_by_url stars)
      (table ++ (addMissing "Name" "URL" "Description" (rows_by_url "URL" table).1
        (freshId table) stars).1)
      (rows_by_url "URL" table).1).1
    = table.map (bfUpdate "Description" (stars_by_url stars) (rows_by_url "URL" table).1)
      ++ (addMissing "Name" "URL" "Description" (rows_by_url "URL" table).1
          (freshId table) stars).1 := by
  rw [backfillAux_table_eq _ _ _ _ (rows_by_url_ids_nodup hids), List.map_append]
  congr 1
  have hfix : ∀ rc ∈ (addMissing "Name" "URL" "Description" (rows_by_url "URL" table).1
      (freshId table) stars).1,
      bfUpdate "Description" (stars_by_url stars) (rows_by_url "URL" table).1 rc = rc := by
    intro rc hrc
    have hge := addMissing_created_ge stars "Name" "URL" "Description" _ (freshId table)
      rc hrc
    rw [bfUpdate, bfValue_not_found]
    intro q hq hc
    have hql : q.2.id < freshId table := id_lt_freshId (rows_by_url_entry_props hq).1
    rw [hc] at hql
    exact absurd hge (Nat.not_le_of_lt hql)
  rw [List.map_congr_left hfix, List.map_id']

theorem star_row_in_run_table (stars : List Star) (table : List Row)
    (hids : (table.map Row.id).Nodup)
    (hnodup : (stars.map Star.url).Nodup)
    (hstars : ∀ s ∈ stars, s.url ≠ "" ∧ s.name ≠ "" ∧
      ∃ ds, s.description = some ds ∧ ds ≠ "")
    (hrows : table.Pairwise
      (fun a b => getField a "URL" = getField b "URL" → getField a "URL" = ""))
    (hnames : ∀ r ∈ table, (∃ s ∈ stars, s.url = getField r "URL") →
      getField r "Name" ≠ "")
    {s : Star} (hs : s ∈ stars) :
    ((table.map (bfUpdate "Description" (stars_by_url stars) (rows_by_url "URL" table).1)
      ++ (addMissing "Name" "URL" "Description" (rows_by_url "URL" table).1
          (freshId table) stars).1).countP
        (fun x => getField x "URL" = s.url)) = 1 ∧
    (∀ x ∈ (table.map (bfUpdate "Description" (stars_by_url stars)
          (rows_by_url "URL" table).1)
        ++ (addMissing "Name" "URL" "Description" (rows_by_url "URL" table).1
            (freshId table) stars).1),
      getField x "URL" = s.url →
        getField x "Name" ≠ "" ∧ getField x "Description" ≠ "") := by
  obtain ⟨hu, hname, ds, hds, hdsne⟩ := hstars s hs
  have hbridge : (fun x : Row => decide (getField x "URL" = s.url))
      = (fun x : Row => decide (getField x "url" = s.url)) := by
    funext x
    rw [getField_URL_eq_url]
  constructor
  · rw [List.countP_append]
    have hcreated : ((addMissing "Name" "URL" "Description" (rows_by_url "URL" table).1
        (freshId table) stars).1.countP (fun x => getField x "URL" = s.url))
        = stars.countP (fun q => decide (q.url = s.url) &&
            !(dictMem q.url (rows_by_url "URL" table).1)) := by
      show ((addMissing "Name" "URL" "Description" (rows_by_url "URL" table).1
        (freshId table) stars).1.countP (fun x => decide (getField x "URL" = s.url))) = _
      rw [hbridge, addMissing_countP]
    have htable : ((table.map (bfUpdate "Description" (stars_by_url stars)
        (rows_by_url "URL" table).1)).countP (fun x => getField x "URL" = s.url))
        = table.countP (fun x => getField x "URL" = s.url) := by
      rw [List.countP_map]
      have hcomp : ((fun x : Row => decide (getField x "URL" = s.url)) ∘
          bfUpdate "Description" (stars_by_url stars) (rows_by_url "URL" table).1)
          = (fun x : Row => decide (getField x "URL" = s.url)) := by
        funext x
        simp only [Function.comp_apply, bfUpdate_keeps_URL]
      rw [hcomp]
    by_cases hm : dictMem s.url (rows_by_url "URL" table).1 = true
    · have hc0 : stars.countP (fun q => decide (q.url = s.url) &&
          !(dictMem q.url (rows_by_url "URL" table).1)) = 0 := by
        rw [List.countP_eq_zero]
        intro q hq hc
        rcases Bool.and_eq_true _ _ |>.mp hc with ⟨hd, hnm⟩
        have hqurl : q.url = s.url := by simpa using hd
        rw [hqurl, hm] at hnm
        exact Bool.noConfusion hnm
      have hc1 : table.countP (fun x => getField x "URL" = s.url) = 1 := by
        rcases dictMem_iff_exists.mp hm with ⟨r0, hr0⟩
        have hprops := rows_by_url_entry_props hr0
        have hr0url : getField r0 "URL" = s.url := by
          rw [getField_URL_eq_url]
          exact hprops.2.1
        exact countP_eq_one_of_unique _ table r0 (List.Nodup.of_map _ hids) hprops.1
          (by simpa using hr0url)
          (fun y hy hpy =>
            url_unique_of_pairwise hrows hu y hy r0 hprops.1 (by simpa using hpy) hr0url)
      rw [htable, hcreated, hc1, hc0]
    · have hmf : dictMem s.url (rows_by_url "URL" table).1 = false :=
        Bool.not_eq_true _ |>.mp hm
      have hc1 : stars.countP (fun q => decide (q.url = s.url) &&
          !(dictMem q.url (rows_by_url "URL" table).1)) = 1 := by
        apply countP_eq_one_of_unique _ stars s (List.Nodup.of_map _ hnodup) hs
        · rw [hmf]
          simp
        · intro q hq hpq
          rcases Bool.and_eq_true _ _ |>.mp hpq with ⟨hd, _⟩
          exact List.inj_on_of_nodup_map hnodup hq hs (by simpa using hd)
      have hc0 : table.countP (fun x => getField x "URL" = s.url) = 0 := by
        rw [List.countP_eq_zero]
        intro r0 hr0t hc
        have hurl : getField r0 "url" = s.url := by
          rw [← getField_URL_eq_url]
          simpa using hc
        have hmt : dictMem s.url (rows_by_url "URL" table).1 = true := by
          rw [dictMem_eq_isSome, rows_by_url_find, if_neg hu]
          cases hf : table.find? (fun y => getField y "url" = s.url) with
          | none =>
            rw [List.find?_eq_none] at hf
            exact absurd hurl (by simpa using hf r0 hr0t)
          | some y => rfl
        rw [hmf] at hmt
        exact Bool.noConfusion hmt
      rw [htable, hcreated, hc1, hc0]
  · intro x hx hurlx
    rcases List.mem_append.mp hx with hxm | hxc
    · rcases List.mem_map.mp hxm with ⟨r0, hr0t, hgr0⟩
      have hr0url : getField r0 "URL" = s.url := by
        rw [← hurlx, ← hgr0, bfUpdate_keeps_URL]
      constructor
      · rw [← hgr0, bfUpdate_keeps_Name]
        exact hnames r0 hr0t ⟨s, hs, hr0url.symm⟩
      · have hfind : table.find? (fun y => getField y "url" = s.url) = some r0 := by
          apply find?_eq_of_unique _ table r0 hr0t
          · show decide (getField r0 "url" = s.url) = true
            rw [← getField_URL_eq_url, hr0url]
            simp
          · intro y hy hpy
            have hyu : getField y "URL" = s.url := by
              rw [getField_URL_eq_url]
              simpa using hpy
            exact url_unique_of_pairwise hrows hu y hy r0 hr0t hyu hr0url
        have hpair : (s.url, r0) ∈ (rows_by_url "URL" table).1 :=
          (rows_by_url_pair_mem table s.url r0).mpr ⟨hu, hfind⟩
        have hbv := bfValue_at_entry hids (stars_by_url stars) hpair
        have hsfind : dictFind (stars_by_url stars) s.url = some s :=
          stars_by_url_find_self hnodup hs
        by_cases h0 : (getField r0 "Description").length = 0
        · rw [if_pos h0, hsfind] at hbv
          have hgr : bfUpdate "Description" (stars_by_url stars)
              (rows_by_url "URL" table).1 r0
                = setFieldOpt r0 "Description" s.description := by
            rw [bfUpdate, hbv]
            rfl
          rw [← hgr0, hgr, getField_setFieldOpt_self rfl, hds]
          intro hc
          exact hdsne (by simpa using hc)
        · have hgr : bfUpdate "Description" (stars_by_url stars)
              (rows_by_url "URL" table).1 r0 = r0 := by
            rw [bfUpdate, hbv, if_neg h0]
          rw [← hgr0, hgr]
          rw [string_length_eq_zero] at h0
          exact h0
    · rcases addMissing_created_mem stars (rows_by_url "URL" table).1 (freshId table)
        x hxc with ⟨q, hq, i, _, hxq, _⟩
      have hxurl : q.url = s.url := by
        rw [← hurlx, hxq, newStarRow_URL]
      have hqeq : q = s := List.inj_on_of_nodup_map hnodup hq hs hxurl
      subst hqeq
      constructor
      · rw [hxq, newStarRow_Name]
        exact hname
      · rw [hxq, newStarRow_Description, hds]
        intro hc
        exact hdsne (by simpa using hc)

/-- C1 (amended): after one successful run — with pairwise distinct star
URLs and, as the counterexample forces, non-empty star URLs and names,
non-null non-empty star descriptions, a snapshot with no two rows
sharing a non-empty URL, and non-empty names on snapshot rows that match
a star — every StarRecord has exactly one table row whose URL field
equals its url, with non-empty name and non-empty description; and when
deletion is enabled no row with an indexed orphan's handle remains. -/
theorem sync_reconciler_invariant (stars : List Star) (table : List Row)
    (delete : Bool)
    (hids : (table.map Row.id).Nodup)
    (hnodup : (stars.map Star.url).Nodup)
    (hstars : ∀ s ∈ stars, s.url ≠ "" ∧ s.name ≠ "" ∧
      ∃ ds, s.description = some ds ∧ ds ≠ "")
    (hrows : table.Pairwise
      (fun a b => getField a "URL" = getField b "URL" → getField a "URL" = ""))
    (hnames : ∀ r ∈ table, (∃ s ∈ stars, s.url = getField r "URL") →
      getField r "Name" ≠ "") :
    (∀ s ∈ stars,
      (((sync_star_table stars table delete "Name" "URL" "Description").1).countP
        (fun x => getField x "URL" = s.url)) = 1 ∧
      (∀ x ∈ (sync_star_table stars table delete "Name" "URL" "Description").1,
        getField x "URL" = s.url →
          getField x "Name" ≠ "" ∧ getField x "Description" ≠ "")) ∧
    (delete = true → ∀ u r, (u, r) ∈ (rows_by_url "URL" table).1 →
      dictMem u (stars_by_url stars) = false →
      ∀ x ∈ (sync_star_table stars table delete "Name" "URL" "Description").1,
        x.id ≠ r.id) := by
  cases delete
  · constructor
    · intro s hs
      have h := star_row_in_run_table stars table hids hnodup hstars hrows hnames hs
      rw [sync_star_table_false, backfill_step_shape stars table hids]
      exact h
    · intro hc
      exact absurd hc (by simp)
  · have hT : (sync_star_table stars table true "Name" "URL" "Description").1
        = (table.map (bfUpdate "Description" (stars_by_url stars)
              (rows_by_url "URL" table).1)
            ++ (addMissing "Name" "URL" "Description" (rows_by_url "URL" table).1
                (freshId table) stars).1).filter
            (fun row => !(orphanDead (stars_by_url stars)
              (rows_by_url "URL" table).1 row.id)) := by
      rw [sync_star_table_true, deleteOrphansAux_table_eq,
        backfill_step_shape stars table hids]
    constructor
    · intro s hs
      have h := star_row_in_run_table stars table hids hnodup hstars hrows hnames hs
      have himp : ∀ x ∈ (table.map (bfUpdate "Description" (stars_by_url stars)
            (rows_by_url "URL" table).1)
          ++ (addMissing "Name" "URL" "Description" (rows_by_url "URL" table).1
              (freshId table) stars).1),
          (fun x : Row => decide (getField x "URL" = s.url)) x = true →
          (fun row : Row => !(orphanDead (stars_by_url stars)
            (rows_by_url "URL" table).1 row.id)) x = true := by
        intro x hxL hpx
        have hpx' : getField x "URL" = s.url := by simpa using hpx
        show (!(orphanDead (stars_by_url stars) (rows_by_url "URL" table).1 x.id)) = true
        cases ho : orphanDead (stars_by_url stars) (rows_by_url "URL" table).1 x.id with
        | false => rfl
        | true =>
          exfalso
          rw [orphanDead] at ho
          rcases List.any_eq_true.mp ho with ⟨⟨u', r'⟩, hp, hpred⟩
          rcases Bool.and_eq_true _ _ |>.mp hpred with ⟨hnm, hid⟩
          have hpid : r'.id = x.id := by simpa using hid
          have hprops' := rows_by_url_entry_props hp
          rcases List.mem_append.mp hxL with hxm | hxc
          · rcases List.mem_map.mp hxm with ⟨r0, hr0t, hgr0⟩
            have hxid : x.id = r0.id := by
              rw [← hgr0, bfUpdate_id]
            have hr'r0 : r' = r0 :=
              List.inj_on_of_nodup_map hids hprops'.1 hr0t (hpid.trans hxid)
            have hu' : u' = s.url := by
              rw [← hprops'.2.1, hr'r0, ← getField_URL_eq_url, ← hpx', ← hgr0,
                bfUpdate_keeps_URL]
            have hsmem : dictMem s.url (stars_by_url stars) = true := by
              rw [stars_by_url_mem]
              exact List.any_eq_true.mpr ⟨s, hs, by simp⟩
            rw [hu', hsmem] at hnm
            exact Bool.noConfusion hnm
          · have hge := addMissing_created_ge stars "Name" "URL" "Description" _
              (freshId table) x hxc
            have hlt : r'.id < freshId table := id_lt_freshId hprops'.1
            rw [hpid] at hlt
            exact absurd hge (Nat.not_le_of_lt hlt)
      constructor
      · rw [hT, List.countP_filter, countP_and_of_imp _ _ _ himp]
        exact h.1
      · intro x hxT hurlx
        rw [hT] at hxT
        exact h.2 x (List.mem_of_mem_filter hxT) hurlx
    · intro _ u r hpair horph x hxT hc
      rw [hT] at hxT
      have hdead : orphanDead (stars_by_url stars) (rows_by_url "URL" table).1 r.id
          = true := by
        rw [orphanDead]
        refine List.any_eq_true.mpr ⟨(u, r), hpair, ?_⟩
        rw [horph]
        simp
      have hmf := List.of_mem_filter hxT
      rw [hc, hdead] at hmf
      exact Bool.noConfusion hmf

/-- C1 counterexample: with the star list `[{name:"A", url:"u1",
description: null}]` (unique URLs) and the empty table snapshot, the run
succeeds but the unique row for `u1` has an empty description field,
contradicting the claimed invariant that its description is non-empty. -/
theorem sync_reconciler_invariant_cex :
    (sync_star_table [Star.mk "A" "u1" none] [] true "Name" "URL" "Description").1
      = [Row.mk 0 [("Name", "A"), ("Description", ""), ("URL", "u1")]] ∧
    getField (Row.mk 0 [("Name", "A"), ("Description", ""), ("URL", "u1")])
      "URL" = "u1" ∧
    getField (Row.mk 0 [("Name", "A"), ("Description", ""), ("URL", "u1")])
      "Description" = "" := by
  refine ⟨?_, ?_, ?_⟩ <;> decide

theorem sync_reconciler_invariant_witness :
    ((sync_star_table [Star.mk "A" "u1" (some "d1")]
        [Row.mk 7 [("Name", "N"), ("URL", "u9"), ("Description", "x")]]
        true "Name" "URL" "Description").1.countP
      (fun x => getField x "URL" = "u1")) = 1 ∧
    (∀ x ∈ (sync_star_table [Star.mk "A" "u1" (some "d1")]
        [Row.mk 7 [("Name", "N"), ("URL", "u9"), ("Description", "x")]]
        true "Name" "URL" "Description").1, x.id ≠ 7) := by
  have h := sync_reconciler_invariant [Star.mk "A" "u1" (some "d1")]
    [Row.mk 7 [("Name", "N"), ("URL", "u9"), ("Description", "x")]] true
    (by decide) (by decide)
    (by
      intro s hs
      have hseq : s = Star.mk "A" "u1" (some "d1") := by simpa using hs
      subst hseq
      exact ⟨by decide, by decide, "d1", rfl, by decide⟩)
    (by simp)
    (by
      intro r hr hex
      have hreq : r = Row.mk 7 [("Name", "N"), ("URL", "u9"), ("Description", "x")] := by
        simpa using hr
      subst hreq
      rcases hex with ⟨s, hs, hsu⟩
      have hseq : s = Star.mk "A" "u1" (some "d1") := by simpa using hs
      rw [hseq] at hsu
      exact absurd hsu (by decide))
  have h1 := h.1 (Star.mk "A" "u1" (some "d1")) (by simp)
  refine ⟨h1.1, ?_⟩
  intro x hx
  exact h.2 rfl "u9"
    (Row.mk 7 [("Name", "N"), ("URL", "u9"), ("Description", "x")])
    (by decide) (by decide) x hx
